import Mathlib

/-!
Verification of the round/progress engine of the learn-countries repository
(src/composables/useGameState.ts), shallowly embedded in Lean 4.

Conventions of the embedding:
* JavaScript `Map<string, T>` becomes an association list `List (String × T)`
  with `aset` matching `Map.set` (replace in place, append when absent) and
  `alookup` matching `Map.get`.
* JavaScript `Set<string>` becomes a `List String` with `addSet` matching
  `Set.add` (append when absent).
* `Math.random()` based choices become explicit oracle parameters: a raw
  `Nat` reduced modulo the candidate count for index picks, and a
  `Nat → Nat` oracle for the per-iteration draws of the Fisher-Yates
  shuffle (`Math.floor(Math.random() * (i + 1))` becomes `r i % (i + 1)`,
  which ranges over exactly the same values `0..i`).
* JavaScript truthiness of the optional string field `flagUrl` is modelled
  by `strPresent` (absent or empty string is falsy); the optional object
  field `capitalLatLng` is truthy exactly when present.
* The numeric values of capital coordinates never influence control flow,
  so latitude/longitude are modelled as integers.
-/

/-- The three guess modalities of the game (type `Stage` in the source). -/
inductive Stage where
  | name
  | flag
  | capital
deriving DecidableEq, Repr

/-- Per-entity mastery record (type `Progress` in the source). -/
structure Progress where
  name : Bool
  flag : Bool
  capital : Bool
deriving DecidableEq, Repr

/-- Entity record delivered by the data provider (type `CountryInfo` in
src/services/countryApi.ts); fields that never influence the engine's
control flow are kept for shape fidelity. -/
structure CountryInfo where
  code : String
  name : String
  capital : String
  capitalLatLng : Option (Int × Int) := none
  flagUrl : Option String := none
  region : Option String := none
  subregion : Option String := none
deriving DecidableEq, Repr

/-- The slice of a `MapConfig` (src/data/maps.ts) the engine consults. -/
structure MapConfig where
  id : String
  supportsFlags : Bool
  supportsCapitals : Bool
deriving DecidableEq, Repr

/-- JavaScript truthiness of an optional string: `undefined` and the empty
string are falsy. -/
def strPresent : Option String → Bool
  | none => false
  | some s => !s.isEmpty

/-- Lookup in an association list, matching `Map.get` / record indexing. -/
def alookup (k : String) : List (String × α) → Option α
  | [] => none
  | (k', v) :: rest => if k' = k then some v else alookup k rest

/-- Update in an association list, matching `Map.set`: replace the entry in
place when the key is present, append otherwise. -/
def aset (k : String) (v : α) : List (String × α) → List (String × α)
  | [] => [(k, v)]
  | (k', v') :: rest => if k' = k then (k, v) :: rest else (k', v') :: aset k v rest

/-- Decidable list membership as a boolean, matching `Array.includes` and
`Set.has`. -/
def listHas [DecidableEq α] (l : List α) (a : α) : Bool := decide (a ∈ l)

/-- JavaScript `Set.add`: append the element when it is not yet present. -/
def addSet (l : List String) (a : String) : List String :=
  if a ∈ l then l else l ++ [a]

/-- Swap two positions of a list (the loop body of `shuffleStages`). -/
def listSwap (l : List α) (i j : Nat) : List α :=
  match l.get? i, l.get? j with
  | some a, some b => (l.set i b).set j a
  | _, _ => l

/-- The descending loop of the Fisher-Yates shuffle in `shuffleStages`:
`for (let index = result.length - 1; index > 0; index -= 1)`, with the
draw `Math.floor(Math.random() * (index + 1))` modelled as `r index % (index + 1)`. -/
def fisherAux (r : Nat → Nat) : Nat → List α → List α
  | 0, l => l
  | i + 1, l => fisherAux r i (listSwap l (i + 1) (r (i + 1) % (i + 2)))

/-- Source `shuffleStages` from the source: an in-place Fisher-Yates shuffle of an
owned copy of the list, driven by the oracle `r`. -/
def shuffleStages (r : Nat → Nat) (stages : List Stage) : List Stage :=
  fisherAux r (stages.length - 1) stages

/-- The whole reactive state owned by `useGameState`, including the active
map's capability snapshot (`activeMap.value.id/supportsFlags/supportsCapitals`). -/
structure GameState where
  loading : Bool
  errorMessage : String
  countries : List (String × CountryInfo)
  flagsEnabled : Bool
  capitalsEnabled : Bool
  targetCode : Option String
  selectedCode : Option String
  reveal : Bool
  isCorrect : Option Bool
  foundCodes : List String
  failedCodes : List String
  stage : Stage
  progressByCode : List (String × Progress)
  remainingStagesByCode : List (String × List Stage)
  activeMapId : String
  supportsFlags : Bool
  supportsCapitals : Bool
deriving DecidableEq, Repr

/-- Source `flagsActive`: the flag difficulty toggle is in effect (enabled and
supported by the active map). -/
def flagsActive (s : GameState) : Bool := s.flagsEnabled && s.supportsFlags

/-- Source `capitalsActive`: the capital difficulty toggle is in effect. -/
def capitalsActive (s : GameState) : Bool := s.capitalsEnabled && s.supportsCapitals

/-- Truthiness of `countries.value[code]?.flagUrl`. -/
def countryFlagPresent (s : GameState) (code : String) : Bool :=
  match alookup code s.countries with
  | some c => strPresent c.flagUrl
  | none => false

/-- Truthiness of `countries.value[code]?.capitalLatLng`. -/
def countryCapitalPresent (s : GameState) (code : String) : Bool :=
  match alookup code s.countries with
  | some c => c.capitalLatLng.isSome
  | none => false

/-- The all-false progress record inserted by `getProgress` on first access. -/
def defaultProgress : Progress := { name := false, flag := false, capital := false }

/-- Source `getProgress`: get-or-insert-default accessor on the progress map; the
returned state carries the possible insertion. -/
def getProgress (code : String) (s : GameState) : Progress × GameState :=
  match alookup code s.progressByCode with
  | some p => (p, s)
  | none =>
      (defaultProgress,
        { s with progressByCode := aset code defaultProgress s.progressByCode })

/-- Source `getAvailableStages`: `['name']`, plus `'flag'` when the flag toggle is
active and the entity has a truthy flag reference, plus `'capital'` when the
capital toggle is active and the entity has capital coordinates. -/
def getAvailableStages (s : GameState) (code : String) : List Stage :=
  let base := [Stage.name]
  let withFlag :=
    if flagsActive s && countryFlagPresent s code then base ++ [Stage.flag] else base
  if capitalsActive s && countryCapitalPresent s code then withFlag ++ [Stage.capital]
  else withFlag

/-- Source `isStageComplete`: whether a given stage is marked done in a progress
record. -/
def isStageComplete (progress : Progress) (stageValue : Stage) : Bool :=
  match stageValue with
  | Stage.name => progress.name
  | Stage.flag => progress.flag
  | Stage.capital => progress.capital

/-- Source `isCodeComplete`: the completeness predicate of the source, verbatim. -/
def isCodeComplete (s : GameState) (code : String) (progress : Progress) : Bool :=
  let hasFlag := flagsActive s && countryFlagPresent s code
  let hasCapital := capitalsActive s && countryCapitalPresent s code
  progress.name && (!hasFlag || progress.flag) && (!hasCapital || progress.capital)

/-- Source `syncRemainingStages`: filter the entity's queue to stages still
applicable and not done, append the shuffled missing ones, store and return
the new queue. -/
def syncRemainingStages (r : Nat → Nat) (code : String) (progress : Progress)
    (s : GameState) : List Stage × GameState :=
  let available :=
    (getAvailableStages s code).filter (fun stageValue => !isStageComplete progress stageValue)
  let existing := (alookup code s.remainingStagesByCode).getD []
  let filteredExisting := existing.filter (fun stageValue => listHas available stageValue)
  let missing := available.filter (fun stageValue => !listHas filteredExisting stageValue)
  let nextStages := filteredExisting ++ shuffleStages r missing
  (nextStages, { s with remainingStagesByCode := aset code nextStages s.remainingStagesByCode })

/-- Source `getStageForCode`: head of the synchronized queue; when that queue is
empty, reshuffle the full applicable list, store it, and serve its head
(`refreshed[0] ?? 'name'`). -/
def getStageForCode (r1 r2 : Nat → Nat) (code : String) (s : GameState) :
    Stage × GameState :=
  let pr := getProgress code s
  let sync := syncRemainingStages r1 code pr.1 pr.2
  if sync.1.isEmpty then
    let refreshed := shuffleStages r2 (getAvailableStages sync.2 code)
    (refreshed.headD Stage.name,
      { sync.2 with remainingStagesByCode := aset code refreshed sync.2.remainingStagesByCode })
  else
    (sync.1.headD Stage.name, sync.2)

/-- The candidate pool of `pickNewTarget`: loaded codes not yet found and
not yet failed. -/
def candidatePool (s : GameState) : List String :=
  (s.countries.map Prod.fst).filter
    (fun code => !listHas s.foundCodes code && !listHas s.failedCodes code)

/-- Source `pickNewTarget`: leave the state unchanged when the pool is empty,
otherwise pick the candidate at the random index, clear the round fields and
compute the stage for the new target. -/
def pickNewTarget (ri : Nat) (r1 r2 : Nat → Nat) (s : GameState) : GameState :=
  let availableCodes := candidatePool s
  if availableCodes.isEmpty then s
  else
    let nextIndex := ri % availableCodes.length
    let nextCode := availableCodes.get? nextIndex
    let s' := { s with targetCode := nextCode, selectedCode := none,
                       reveal := false, isCorrect := none }
    match nextCode with
    | some c =>
        let picked := getStageForCode r1 r2 c s'
        { picked.2 with stage := picked.1 }
    | none => { s' with stage := Stage.name }

/-- Source `refreshFoundCodes`: recompute `foundCodes` from scratch by filtering
the progress entries through `isCodeComplete`. -/
def refreshFoundCodes (s : GameState) : GameState :=
  { s with foundCodes :=
      (s.progressByCode.filter (fun kp => isCodeComplete s kp.1 kp.2)).map Prod.fst }

/-- Source `handleGuess`: record the selection unless the round is already revealed. -/
def handleGuess (code : String) (s : GameState) : GameState :=
  if s.reveal then s else { s with selectedCode := some code }

/-- The stage-marking if-chain of `confirmGuess` (each branch guards with
`if (!progress.X)` before writing, which is the identity when the field is
already true, so the net effect is setting the field). -/
def markStage (progress : Progress) (stageValue : Stage) : Progress :=
  match stageValue with
  | Stage.name => { progress with name := true }
  | Stage.flag => { progress with flag := true }
  | Stage.capital => { progress with capital := true }

/-- Source `confirmGuess`: score the round; on a correct guess mark the stage done,
drop it from the queue and add the entity to `foundCodes` when complete; on
a wrong guess add the target to `failedCodes`. -/
def confirmGuess (s : GameState) : GameState :=
  match s.selectedCode, s.targetCode with
  | some sel, some tgt =>
      let s0 := { s with reveal := true, isCorrect := some (decide (sel = tgt)) }
      if sel = tgt then
        let pr := getProgress tgt s0
        let p' := markStage pr.1 s0.stage
        let s1 := { pr.2 with progressByCode := aset tgt p' pr.2.progressByCode }
        let s2 :=
          match alookup tgt s1.remainingStagesByCode with
          | some remainingStages =>
              let kept := remainingStages.filter (fun stageValue => !decide (stageValue = s1.stage))
              { s1 with remainingStagesByCode := aset tgt kept s1.remainingStagesByCode }
          | none => s1
        if isCodeComplete s2 tgt p' then
          { s2 with foundCodes := addSet s2.foundCodes tgt }
        else s2
      else { s0 with failedCodes := addSet s0.failedCodes tgt }
  | _, _ => s

/-- Source `advanceRound`: the source branches on `targetCode` but both branches
call `pickNewTarget`. -/
def advanceRound (ri : Nat) (r1 r2 : Nat → Nat) (s : GameState) : GameState :=
  match s.targetCode with
  | none => pickNewTarget ri r1 r2 s
  | some _ => pickNewTarget ri r1 r2 s

/-- Source `resetProgress`: clear all per-entity state and the session fields. -/
def resetProgress (s : GameState) : GameState :=
  { s with progressByCode := [], remainingStagesByCode := [],
           foundCodes := [], failedCodes := [],
           selectedCode := none, reveal := false, isCorrect := none,
           targetCode := none, stage := Stage.name }

/-- Source `resetGame`: the same clears as `resetProgress` followed by
`pickNewTarget`. -/
def resetGame (ri : Nat) (r1 r2 : Nat → Nat) (s : GameState) : GameState :=
  pickNewTarget ri r1 r2 (resetProgress s)

/-- Source `actionDisabled`: disabled while loading or on error; after reveal the
action is always enabled; before reveal it requires a selection. -/
def actionDisabled (s : GameState) : Bool :=
  if s.loading || !s.errorMessage.isEmpty then true
  else if s.reveal then false
  else s.selectedCode.isNone

/-- Source `handlePrimaryAction`: confirm before reveal, advance after, no-op when
disabled. -/
def handlePrimaryAction (ri : Nat) (r1 r2 : Nat → Nat) (s : GameState) : GameState :=
  if actionDisabled s then s
  else if s.reveal then advanceRound ri r1 r2 s
  else confirmGuess s

/-- The synchronous prefix of `loadMap`, up to the suspension at the fetch:
set loading, clear the error and the snapshot, reset per-entity state, force
unsupported toggles off, and record the requested map's identity and
capabilities. (The toggle watcher that the forced writes schedule runs on an
empty progress map with no target and only rewrites persisted settings.) -/
def loadMapStart (next : MapConfig) (s : GameState) : GameState :=
  let s1 := resetProgress
    { s with loading := true, errorMessage := "", countries := [],
             activeMapId := next.id,
             supportsFlags := next.supportsFlags,
             supportsCapitals := next.supportsCapitals }
  let s2 := if !next.supportsFlags then { s1 with flagsEnabled := false } else s1
  if !next.supportsCapitals then { s2 with capitalsEnabled := false } else s2

/-- The continuation of `loadMap` after its fetch resolves: store the
snapshot, pick a target, clear loading. The parameter `next` is the map the
suspended invocation was loading; the source never consults it here — the
result is applied whether or not that request is still the active one. -/
def loadMapResolve (next : MapConfig) (result : List (String × CountryInfo))
    (ri : Nat) (r1 r2 : Nat → Nat) (s : GameState) : GameState :=
  let _ := next
  let s1 := pickNewTarget ri r1 r2 { s with countries := result }
  { s1 with loading := false }

/-- The continuation of `loadMap` after its fetch rejects: record the error
message and clear loading; likewise applied unconditionally. -/
def loadMapReject (next : MapConfig) (msg : String) (s : GameState) : GameState :=
  let _ := next
  { s with errorMessage := msg, loading := false }

/-- A whole uninterrupted successful `loadMap` run. -/
def loadMapSuccess (next : MapConfig) (result : List (String × CountryInfo))
    (ri : Nat) (r1 r2 : Nat → Nat) (s : GameState) : GameState :=
  loadMapResolve next result ri r1 r2 (loadMapStart next s)

/-- A whole uninterrupted failed `loadMap` run. -/
def loadMapFailure (next : MapConfig) (msg : String) (s : GameState) : GameState :=
  loadMapReject next msg (loadMapStart next s)

/-- The body of `watch([flagsEnabled, capitalsEnabled], ...)`: recompute
`foundCodes`, then — when a target exists — recompute the stage and clear
the round when the current stage became inapplicable, and resynchronize the
target's queue regardless. (The `writeSettings` call only touches external
storage.) -/
def onTogglesChanged (r1 r2 r3 : Nat → Nat) (s : GameState) : GameState :=
  let s0 := refreshFoundCodes s
  match s0.targetCode with
  | none => s0
  | some tgt =>
      let availableStages := getAvailableStages s0 tgt
      let s1 :=
        if !listHas availableStages s0.stage then
          let picked := getStageForCode r1 r2 tgt s0
          { picked.2 with stage := picked.1, selectedCode := none,
                          reveal := false, isCorrect := none }
        else s0
      let pr := getProgress tgt s1
      (syncRemainingStages r3 tgt pr.1 pr.2).2

/-- Setting the flags toggle, with the watcher it triggers. -/
def setFlagsEnabled (b : Bool) (r1 r2 r3 : Nat → Nat) (s : GameState) : GameState :=
  onTogglesChanged r1 r2 r3 { s with flagsEnabled := b }

/-- Setting the capitals toggle, with the watcher it triggers. -/
def setCapitalsEnabled (b : Bool) (r1 r2 r3 : Nat → Nat) (s : GameState) : GameState :=
  onTogglesChanged r1 r2 r3 { s with capitalsEnabled := b }

/-- The engine's state right after `useGameState` is invoked, before the
mounted hook's first load completes: loading, empty snapshot, toggles
hydrated from persisted settings. -/
def initState (fe ce : Bool) (mapId : String) (sf sc : Bool) : GameState :=
  { loading := true, errorMessage := "", countries := [],
    flagsEnabled := fe, capitalsEnabled := ce,
    targetCode := none, selectedCode := none, reveal := false, isCorrect := none,
    foundCodes := [], failedCodes := [], stage := Stage.name,
    progressByCode := [], remainingStagesByCode := [],
    activeMapId := mapId, supportsFlags := sf, supportsCapitals := sc }

/-- The state built for a freshly picked target inside `pickNewTarget`. -/
def pickApply (r1 r2 : Nat → Nat) (c : String) (s : GameState) : GameState :=
  let s' := { s with targetCode := some c, selectedCode := none,
                     reveal := false, isCorrect := none }
  let picked := getStageForCode r1 r2 c s'
  { picked.2 with stage := picked.1 }

/-- The state produced by the correct branch of `confirmGuess` for target `t`. -/
def confirmCorrectResult (t : String) (s : GameState) : GameState :=
  let p' := markStage ((alookup t s.progressByCode).getD defaultProgress) s.stage
  let s1 := { s with reveal := true, isCorrect := some true,
                     progressByCode := (aset t p' s.progressByCode) }
  let s2 :=
    match alookup t s.remainingStagesByCode with
    | some rs =>
        { s1 with remainingStagesByCode :=
            (aset t (rs.filter (fun stageValue => !decide (stageValue = s.stage)))
              s.remainingStagesByCode) }
    | none => s1
  if isCodeComplete s2 t p' then { s2 with foundCodes := addSet s2.foundCodes t } else s2

/-- Sample data used to instantiate the claim theorems at concrete inputs. -/
def frInfo : CountryInfo :=
  { code := "FR", name := "France", capital := "Paris",
    capitalLatLng := some (48, 2), flagUrl := some "fr.svg" }

/-- A second sample entity. -/
def deInfo : CountryInfo :=
  { code := "DE", name := "Germany", capital := "Berlin",
    capitalLatLng := some (52, 13), flagUrl := some "de.svg" }

/-- A sample countries map (full-capability). -/
def mapA : MapConfig := { id := "europe", supportsFlags := true, supportsCapitals := true }

/-- A sample feature-collection map (no flag or capital data). -/
def mapB : MapConfig := { id := "fr-regions", supportsFlags := false, supportsCapitals := false }

/-- The constant-zero randomness oracle used for concrete runs. -/
def zOracle : Nat → Nat := fun _ => 0

/-- A sample successful load result. -/
def sampleResult : List (String × CountryInfo) := [("FR", frInfo), ("DE", deInfo)]

/-- The engine state after a successful initial load of `sampleResult`. -/
def sampleLoaded : GameState :=
  loadMapSuccess mapA sampleResult 0 zOracle zOracle (initState false false "europe" true true)

/-- The terminal error state of a failed load: a persistent message, no
target, an empty snapshot, and the primary action disabled. -/
def loadErrorState (msg : String) (s : GameState) : Prop :=
  s.errorMessage = msg ∧ s.targetCode = none ∧ s.countries = [] ∧ actionDisabled s = true

/-- The tail of the toggle watcher: resynchronize the target's queue. -/
def applySyncTail (r3 : Nat → Nat) (tgt : String) (s : GameState) : GameState :=
  let pr := getProgress tgt s
  (syncRemainingStages r3 tgt pr.1 pr.2).2

/-- The stage-invalidation branch of the toggle watcher: recompute the stage
and clear the in-progress round. -/
def stageReset (r1 r2 : Nat → Nat) (tgt : String) (s : GameState) : GameState :=
  let picked := getStageForCode r1 r2 tgt s
  { picked.2 with stage := picked.1, selectedCode := none,
                  reveal := false, isCorrect := none }

/-- The session's current stage is applicable for the current target. -/
def stageOK (s : GameState) : Prop :=
  ∀ t, s.targetCode = some t → s.stage ∈ getAvailableStages s t

/-- The data prerequisite of a stage for an entity: a flag reference for the
flag stage, capital coordinates for the capital stage. -/
def stageDataOk (s : GameState) (code : String) : Stage → Prop
  | Stage.name => True
  | Stage.flag => countryFlagPresent s code = true
  | Stage.capital => countryCapitalPresent s code = true

/-- The queue invariant of the spec: no queued stage is already done in the
entity's Progress, and no queued stage lacks its data prerequisite. -/
def queueInv (s : GameState) : Prop :=
  ∀ code q, alookup code s.remainingStagesByCode = some q →
    ∀ st ∈ q, stageDataOk s code st ∧
      ∀ p, alookup code s.progressByCode = some p → isStageComplete p st = false

/-- Complete entities are recorded in `foundCodes` (the strengthening that
makes the queue invariant inductive). -/
def completeSync (s : GameState) : Prop :=
  ∀ code p, alookup code s.progressByCode = some p →
    isCodeComplete s code p = true → code ∈ s.foundCodes

/-- The conjunction carried through the induction. -/
def engineInv (s : GameState) : Prop := queueInv s ∧ completeSync s

/-- States the engine can reach: the initial state, closed under whole loads
(successful or failed), guesses, confirmation, the primary action, resets and
difficulty-toggle changes. -/
inductive Reachable : GameState → Prop where
  | init : ∀ fe ce mid sf sc, Reachable (initState fe ce mid sf sc)
  | loadOk : ∀ {s} (next : MapConfig) (result : List (String × CountryInfo))
      (ri : Nat) (r1 r2 : Nat → Nat), Reachable s →
      Reachable (loadMapSuccess next result ri r1 r2 s)
  | loadErr : ∀ {s} (next : MapConfig) (msg : String), Reachable s →
      Reachable (loadMapFailure next msg s)
  | guess : ∀ {s} (code : String), Reachable s → Reachable (handleGuess code s)
  | confirm : ∀ {s}, Reachable s → Reachable (confirmGuess s)
  | primary : ∀ {s} (ri : Nat) (r1 r2 : Nat → Nat), Reachable s →
      Reachable (handlePrimaryAction ri r1 r2 s)
  | reset : ∀ {s} (ri : Nat) (r1 r2 : Nat → Nat), Reachable s →
      Reachable (resetGame ri r1 r2 s)
  | flags : ∀ {s} (b : Bool) (r1 r2 r3 : Nat → Nat), Reachable s →
      Reachable (setFlagsEnabled b r1 r2 r3 s)
  | capitals : ∀ {s} (b : Bool) (r1 r2 r3 : Nat → Nat), Reachable s →
      Reachable (setCapitalsEnabled b r1 r2 r3 s)

/-- The queue invariant restricted to codes other than a distinguished one
(the toggle watcher's final resynchronization restores the target's queue,
so only the other queues need to be sound beforehand). -/
def queueInvX (tgt : String) (s : GameState) : Prop :=
  ∀ code q, code ≠ tgt → alookup code s.remainingStagesByCode = some q →
    ∀ st ∈ q, stageDataOk s code st ∧
      ∀ p, alookup code s.progressByCode = some p → isStageComplete p st = false

/-! ### Lemmas and claim theorems -/

theorem alookup_aset_self (k : String) (v : α) (m : List (String × α)) :
    alookup k (aset k v m) = some v := by
  induction m with
  | nil => simp [aset, alookup]
  | cons kv rest ih =>
      by_cases h : kv.1 = k
      · simp [aset, alookup, h]
      · simp [aset, alookup, h, ih]

theorem alookup_aset_ne (k k' : String) (hk : k ≠ k') (v : α) (m : List (String × α)) :
    alookup k' (aset k v m) = alookup k' m := by
  induction m with
  | nil => simp [aset, alookup, hk]
  | cons kv rest ih =>
      by_cases h : kv.1 = k
      · simp [aset, alookup, h, hk]
      · simp only [aset, alookup, h, if_false]
        by_cases h' : kv.1 = k'
        · simp [alookup, h']
        · simp [alookup, h', ih]

theorem alookup_mem {k : String} {v : α} {m : List (String × α)}
    (h : alookup k m = some v) : (k, v) ∈ m := by
  induction m with
  | nil => simp [alookup] at h
  | cons kv rest ih =>
      obtain ⟨k1, v1⟩ := kv
      by_cases hk : k1 = k
      · subst hk
        simp only [alookup, if_pos rfl] at h
        injection h with h'
        subst h'
        exact List.mem_cons_self _ _
      · simp only [alookup, hk, if_neg, not_false_iff] at h
        exact List.mem_cons_of_mem _ (ih h)

theorem mem_addSet {l : List String} {a b : String} :
    a ∈ addSet l b ↔ a ∈ l ∨ a = b := by
  unfold addSet
  by_cases h : b ∈ l
  · simp only [h, if_true]
    constructor
    · exact Or.inl
    · rintro (ha | rfl) <;> assumption
  · simp [h, List.mem_append, or_comm]

theorem subset_addSet (l : List String) (b : String) : l ⊆ addSet l b := by
  intro a ha
  exact mem_addSet.mpr (Or.inl ha)

theorem listHas_iff [DecidableEq α] {l : List α} {a : α} :
    listHas l a = true ↔ a ∈ l := by
  simp [listHas]

theorem listHas_false_iff [DecidableEq α] {l : List α} {a : α} :
    listHas l a = false ↔ a ∉ l := by
  simp [listHas]

theorem count_set_add [DecidableEq α] (l : List α) (n : Nat) (v : α)
    (h : n < l.length) (x : α) :
    (l.set n v).count x + (if l[n] = x then 1 else 0)
      = l.count x + (if v = x then 1 else 0) := by
  induction l generalizing n with
  | nil => simp at h
  | cons a t ih =>
      cases n with
      | zero =>
          simp only [List.set, List.count_cons, List.getElem_cons_zero, beq_iff_eq]
          split_ifs <;> omega
      | succ m =>
          have hm : m < t.length := by simpa using h
          have hrec := ih m hm
          have hset : (a :: t).set (m + 1) v = a :: t.set m v := rfl
          have hget : (a :: t)[m + 1] = t[m] := List.getElem_cons_succ ..
          rw [hset, hget, List.count_cons, List.count_cons]
          simp only [beq_iff_eq]
          omega

theorem listSwap_perm [DecidableEq α] (l : List α) (i j : Nat) :
    (listSwap l i j).Perm l := by
  unfold listSwap
  cases hi : l.get? i with
  | none => exact List.Perm.refl l
  | some a =>
      cases hj : l.get? j with
      | none => exact List.Perm.refl l
      | some b =>
          obtain ⟨hilen, hia⟩ := List.get?_eq_some.mp hi
          obtain ⟨hjlen, hjb⟩ := List.get?_eq_some.mp hj
          have hil : l[i] = a := hia
          have hjl : l[j] = b := hjb
          show ((l.set i b).set j a).Perm l
          rw [List.perm_iff_count]
          intro x
          have hjlen' : j < (l.set i b).length := by
            simpa [List.length_set] using hjlen
          have h2 := count_set_add (l.set i b) j a hjlen' x
          have h1 := count_set_add l i b hilen x
          have hset : (l.set i b)[j] = if i = j then b else l[j] :=
            List.getElem_set hjlen'
          by_cases hij : i = j
          · subst hij
            have hab : a = b := by rw [← hil, ← hjl]
            subst hab
            simp only [if_pos rfl] at hset
            rw [hset] at h2
            rw [hil] at h1
            split_ifs at h1 h2 <;> omega
          · simp only [if_neg hij] at hset
            rw [hset, hjl] at h2
            rw [hil] at h1
            split_ifs at h1 h2 <;> omega

theorem fisherAux_perm [DecidableEq α] (r : Nat → Nat) :
    ∀ (i : Nat) (l : List α), (fisherAux r i l).Perm l
  | 0, l => List.Perm.refl l
  | i + 1, l =>
      (fisherAux_perm r i (listSwap l (i + 1) (r (i + 1) % (i + 2)))).trans
        (listSwap_perm l (i + 1) (r (i + 1) % (i + 2)))

theorem shuffleStages_perm (r : Nat → Nat) (l : List Stage) :
    (shuffleStages r l).Perm l :=
  fisherAux_perm r (l.length - 1) l

theorem mem_shuffleStages {r : Nat → Nat} {l : List Stage} {st : Stage} :
    st ∈ shuffleStages r l ↔ st ∈ l :=
  (shuffleStages_perm r l).mem_iff

theorem shuffleStages_eq_nil {r : Nat → Nat} {l : List Stage} :
    shuffleStages r l = [] ↔ l = [] := by
  constructor
  · intro h
    have := (shuffleStages_perm r l).length_eq
    rw [h] at this
    exact List.length_eq_zero.mp this.symm
  · intro h
    subst h
    rfl

theorem headD_mem {l : List α} (h : l ≠ []) (d : α) : l.headD d ∈ l := by
  cases l with
  | nil => exact absurd rfl h
  | cons a t => simp [List.headD]

theorem mem_getAvailableStages {s : GameState} {code : String} {st : Stage} :
    st ∈ getAvailableStages s code ↔
      (st = Stage.name ∨
        (st = Stage.flag ∧ (flagsActive s && countryFlagPresent s code) = true) ∨
        (st = Stage.capital ∧ (capitalsActive s && countryCapitalPresent s code) = true)) := by
  cases h1 : flagsActive s && countryFlagPresent s code <;>
    cases h2 : capitalsActive s && countryCapitalPresent s code <;>
      cases st <;> simp [getAvailableStages, h1, h2]

theorem getAvailableStages_ne_nil (s : GameState) (code : String) :
    getAvailableStages s code ≠ [] := by
  cases h1 : flagsActive s && countryFlagPresent s code <;>
    cases h2 : capitalsActive s && countryCapitalPresent s code <;>
      simp [getAvailableStages, h1, h2]

theorem getAvailableStages_headName (s : GameState) (code : String) :
    (getAvailableStages s code).head? = some Stage.name := by
  cases h1 : flagsActive s && countryFlagPresent s code <;>
    cases h2 : capitalsActive s && countryCapitalPresent s code <;>
      simp [getAvailableStages, h1, h2]

theorem getAvailableStages_congr {s s' : GameState} (code : String)
    (h1 : s.flagsEnabled = s'.flagsEnabled) (h2 : s.supportsFlags = s'.supportsFlags)
    (h3 : s.capitalsEnabled = s'.capitalsEnabled)
    (h4 : s.supportsCapitals = s'.supportsCapitals)
    (h5 : s.countries = s'.countries) :
    getAvailableStages s code = getAvailableStages s' code := by
  simp only [getAvailableStages, flagsActive, capitalsActive, countryFlagPresent,
    countryCapitalPresent, h1, h2, h3, h4, h5]

theorem isCodeComplete_congr {s s' : GameState} (code : String) (p : Progress)
    (h1 : s.flagsEnabled = s'.flagsEnabled) (h2 : s.supportsFlags = s'.supportsFlags)
    (h3 : s.capitalsEnabled = s'.capitalsEnabled)
    (h4 : s.supportsCapitals = s'.supportsCapitals)
    (h5 : s.countries = s'.countries) :
    isCodeComplete s code p = isCodeComplete s' code p := by
  simp only [isCodeComplete, flagsActive, capitalsActive, countryFlagPresent,
    countryCapitalPresent, h1, h2, h3, h4, h5]

theorem getProgress_snd_eq (code : String) (s : GameState) :
    (getProgress code s).2 =
      { s with progressByCode := (getProgress code s).2.progressByCode } := by
  unfold getProgress
  cases alookup code s.progressByCode <;> rfl

theorem getProgress_fst (code : String) (s : GameState) :
    (getProgress code s).1 = (alookup code s.progressByCode).getD defaultProgress := by
  unfold getProgress
  cases alookup code s.progressByCode <;> rfl

theorem getProgress_snd_eq2 (code : String) (s : GameState) :
    (getProgress code s).2 =
      { s with progressByCode := ((alookup code s.progressByCode).elim
          (aset code defaultProgress s.progressByCode) (fun _ => s.progressByCode)) } := by
  unfold getProgress
  cases h : alookup code s.progressByCode <;> simp

theorem getProgress_lookup_self (code : String) (s : GameState) :
    alookup code ((getProgress code s).2).progressByCode = some (getProgress code s).1 := by
  unfold getProgress
  cases h : alookup code s.progressByCode with
  | some p => simp [h]
  | none => simp [alookup_aset_self]

theorem getProgress_lookup_other {c code : String} (h : c ≠ code) (s : GameState) :
    alookup c ((getProgress code s).2).progressByCode = alookup c s.progressByCode := by
  unfold getProgress
  cases h' : alookup code s.progressByCode with
  | some p => rfl
  | none => simpa using alookup_aset_ne code c (fun he => h he.symm) defaultProgress s.progressByCode

theorem aset_eq_append_of_lookup_none {code : String} {v : α} {m : List (String × α)}
    (h : alookup code m = none) : aset code v m = m ++ [(code, v)] := by
  induction m with
  | nil => rfl
  | cons kv rest ih =>
      by_cases hk : kv.1 = code
      · simp [alookup, hk] at h
      · simp only [alookup, hk, if_neg, not_false_iff] at h
        simp [aset, hk, ih h]

theorem getProgress_entries (code : String) (s : GameState) :
    ((getProgress code s).2).progressByCode = s.progressByCode ∨
      ((getProgress code s).2).progressByCode
        = s.progressByCode ++ [(code, defaultProgress)] := by
  unfold getProgress
  cases h : alookup code s.progressByCode with
  | some p => exact Or.inl rfl
  | none => exact Or.inr (by simpa using aset_eq_append_of_lookup_none h)

theorem mem_refreshFoundCodes {s : GameState} {c : String} :
    c ∈ (refreshFoundCodes s).foundCodes ↔
      ∃ p, (c, p) ∈ s.progressByCode ∧ isCodeComplete s c p = true := by
  simp only [refreshFoundCodes, List.mem_map, List.mem_filter]
  constructor
  · rintro ⟨⟨c', p⟩, ⟨hm, hc⟩, rfl⟩
    exact ⟨p, hm, hc⟩
  · rintro ⟨p, hm, hc⟩
    exact ⟨(c, p), ⟨hm, hc⟩, rfl⟩

theorem syncRemainingStages_snd (r : Nat → Nat) (code : String) (p : Progress)
    (s : GameState) :
    (syncRemainingStages r code p s).2 =
      { s with remainingStagesByCode := (aset code (syncRemainingStages r code p s).1
          s.remainingStagesByCode) } := rfl

theorem mem_syncRemainingStages {r : Nat → Nat} {code : String} {p : Progress}
    {s : GameState} {st : Stage} (hst : st ∈ (syncRemainingStages r code p s).1) :
    st ∈ getAvailableStages s code ∧ isStageComplete p st = false := by
  simp only [syncRemainingStages] at hst
  have hav : st ∈ (getAvailableStages s code).filter
      (fun stageValue => !isStageComplete p stageValue) := by
    rcases List.mem_append.mp hst with h | h
    · exact listHas_iff.mp (List.mem_filter.mp h).2
    · exact (List.mem_filter.mp (mem_shuffleStages.mp h)).1
  have := List.mem_filter.mp hav
  exact ⟨this.1, by simpa using this.2⟩

theorem syncRemainingStages_ne_nil {r : Nat → Nat} {code : String} {p : Progress}
    {s : GameState} {st : Stage} (hmem : st ∈ getAvailableStages s code)
    (hnd : isStageComplete p st = false) :
    (syncRemainingStages r code p s).1 ≠ [] := by
  intro hnil
  simp only [syncRemainingStages] at hnil
  obtain ⟨hfe, hsh⟩ := List.append_eq_nil.mp hnil
  have hmiss := shuffleStages_eq_nil.mp hsh
  rw [hfe] at hmiss
  simp only [listHas, List.not_mem_nil, decide_False, Bool.not_false, List.filter_true] at hmiss
  have : st ∈ (getAvailableStages s code).filter
      (fun stageValue => !isStageComplete p stageValue) :=
    List.mem_filter.mpr ⟨hmem, by simp [hnd]⟩
  rw [hmiss] at this
  exact List.not_mem_nil st this

theorem getAvailableStages_syncRemainingStages (r : Nat → Nat) (code c : String)
    (p : Progress) (s : GameState) :
    getAvailableStages ((syncRemainingStages r code p s).2) c = getAvailableStages s c := by
  rw [syncRemainingStages_snd]
  exact getAvailableStages_congr c rfl rfl rfl rfl rfl

theorem getAvailableStages_getProgress (code c : String) (s : GameState) :
    getAvailableStages ((getProgress code s).2) c = getAvailableStages s c :=
  getAvailableStages_congr c (by rw [getProgress_snd_eq code s])
    (by rw [getProgress_snd_eq code s]) (by rw [getProgress_snd_eq code s])
    (by rw [getProgress_snd_eq code s]) (by rw [getProgress_snd_eq code s])

theorem getStageForCode_snd_shape (r1 r2 : Nat → Nat) (code : String) (s : GameState) :
    ∃ q, (getStageForCode r1 r2 code s).2 =
      { (getProgress code s).2 with remainingStagesByCode := q } := by
  simp only [getStageForCode]
  by_cases h : (syncRemainingStages r1 code (getProgress code s).1
      (getProgress code s).2).1.isEmpty = true
  · rw [if_pos h]
    exact ⟨_, rfl⟩
  · rw [if_neg h]
    exact ⟨_, rfl⟩

theorem getAvailableStages_getStageForCode (r1 r2 : Nat → Nat) (code c : String)
    (s : GameState) :
    getAvailableStages ((getStageForCode r1 r2 code s).2) c = getAvailableStages s c := by
  obtain ⟨q, hq⟩ := getStageForCode_snd_shape r1 r2 code s
  rw [hq]
  have h1 : getAvailableStages { (getProgress code s).2 with remainingStagesByCode := q } c
      = getAvailableStages ((getProgress code s).2) c :=
    getAvailableStages_congr c rfl rfl rfl rfl rfl
  rw [h1, getAvailableStages_getProgress]

theorem getStageForCode_fst_mem (r1 r2 : Nat → Nat) (code : String) (s : GameState) :
    (getStageForCode r1 r2 code s).1 ∈ getAvailableStages s code := by
  simp only [getStageForCode]
  by_cases h : (syncRemainingStages r1 code (getProgress code s).1
      (getProgress code s).2).1.isEmpty = true
  · rw [if_pos h]
    have hne : shuffleStages r2
        (getAvailableStages (syncRemainingStages r1 code (getProgress code s).1
          (getProgress code s).2).2 code) ≠ [] := by
      intro hnil
      exact getAvailableStages_ne_nil _ code (shuffleStages_eq_nil.mp hnil)
    have hmem := headD_mem hne Stage.name
    have hmem' := mem_shuffleStages.mp hmem
    have heq : getAvailableStages s code
        = getAvailableStages ((syncRemainingStages r1 code (getProgress code s).1
            (getProgress code s).2).2) code := by
      rw [getAvailableStages_syncRemainingStages, getAvailableStages_getProgress]
    rw [heq]
    exact hmem'
  · rw [if_neg h]
    have hne' : (syncRemainingStages r1 code (getProgress code s).1
        (getProgress code s).2).1 ≠ [] := by
      intro hnil
      rw [hnil] at h
      exact h rfl
    have hmem := headD_mem hne' Stage.name
    have := (mem_syncRemainingStages hmem).1
    rwa [getAvailableStages_getProgress] at this

theorem getProgress_rem (code : String) (s : GameState) :
    ((getProgress code s).2).remainingStagesByCode = s.remainingStagesByCode := by
  rw [getProgress_snd_eq]

theorem markStage_done (p : Progress) (st : Stage) :
    isStageComplete (markStage p st) st = true := by
  cases st <;> rfl

theorem markStage_other {st st' : Stage} (h : st' ≠ st) (p : Progress) :
    isStageComplete (markStage p st) st' = isStageComplete p st' := by
  cases st <;> cases st' <;> first | rfl | exact absurd rfl h

theorem getStageForCode_notDone {r1 r2 : Nat → Nat} {code : String} {s : GameState}
    {st₀ : Stage} (hmem : st₀ ∈ getAvailableStages s code)
    (hnd : isStageComplete (getProgress code s).1 st₀ = false) :
    (getStageForCode r1 r2 code s).1 ∈ getAvailableStages s code ∧
      isStageComplete (getProgress code s).1 (getStageForCode r1 r2 code s).1 = false ∧
      alookup code ((getStageForCode r1 r2 code s).2).remainingStagesByCode
        = some (syncRemainingStages r1 code (getProgress code s).1 (getProgress code s).2).1 := by
  have hmem' : st₀ ∈ getAvailableStages ((getProgress code s).2) code := by
    rw [getAvailableStages_getProgress]
    exact hmem
  have hne : (syncRemainingStages r1 code (getProgress code s).1
      (getProgress code s).2).1 ≠ [] :=
    syncRemainingStages_ne_nil hmem' hnd
  have hemp : ¬((syncRemainingStages r1 code (getProgress code s).1
      (getProgress code s).2).1.isEmpty = true) := by
    rw [List.isEmpty_iff]
    exact hne
  simp only [getStageForCode]
  rw [if_neg hemp]
  have hhead := headD_mem hne Stage.name
  have hms := mem_syncRemainingStages hhead
  refine ⟨?_, hms.2, ?_⟩
  · have := hms.1
    rwa [getAvailableStages_getProgress] at this
  · rw [syncRemainingStages_snd]
    exact alookup_aset_self code _ _

theorem getStageForCode_queue_other {c code : String} (hne : c ≠ code)
    (r1 r2 : Nat → Nat) (s : GameState) :
    alookup c ((getStageForCode r1 r2 code s).2).remainingStagesByCode
      = alookup c s.remainingStagesByCode := by
  have hcode : code ≠ c := fun h => hne h.symm
  simp only [getStageForCode]
  by_cases h : (syncRemainingStages r1 code (getProgress code s).1
      (getProgress code s).2).1.isEmpty = true
  · rw [if_pos h]
    show alookup c (aset code _ _) = _
    rw [alookup_aset_ne code c hcode, syncRemainingStages_snd]
    show alookup c (aset code _ _) = _
    rw [alookup_aset_ne code c hcode, getProgress_rem]
  · rw [if_neg h]
    show alookup c ((syncRemainingStages r1 code (getProgress code s).1
        (getProgress code s).2).2).remainingStagesByCode = _
    rw [syncRemainingStages_snd]
    show alookup c (aset code _ _) = _
    rw [alookup_aset_ne code c hcode, getProgress_rem]

theorem pickNewTarget_of_empty {s : GameState} (h : candidatePool s = [])
    (ri : Nat) (r1 r2 : Nat → Nat) : pickNewTarget ri r1 r2 s = s := by
  simp [pickNewTarget, h]

theorem pickNewTarget_spec {s : GameState} (h : candidatePool s ≠ [])
    (ri : Nat) (r1 r2 : Nat → Nat) :
    ∃ c, c ∈ candidatePool s ∧ pickNewTarget ri r1 r2 s = pickApply r1 r2 c s := by
  simp only [pickNewTarget]
  have hemp : ¬((candidatePool s).isEmpty = true) := by
    rw [List.isEmpty_iff]
    exact h
  rw [if_neg hemp]
  have hlt : ri % (candidatePool s).length < (candidatePool s).length :=
    Nat.mod_lt _ (List.length_pos.mpr h)
  rw [List.get?_eq_get hlt]
  exact ⟨_, List.get_mem _ _ _, rfl⟩

theorem mem_candidatePool {s : GameState} {c : String} :
    c ∈ candidatePool s ↔
      c ∈ s.countries.map Prod.fst ∧ c ∉ s.foundCodes ∧ c ∉ s.failedCodes := by
  simp [candidatePool, listHas, and_assoc]

theorem aset_aset (k : String) (v v' : α) (m : List (String × α)) :
    aset k v' (aset k v m) = aset k v' m := by
  induction m with
  | nil => simp [aset]
  | cons kv rest ih =>
      by_cases h : kv.1 = k
      · simp [aset, h]
      · simp [aset, h, ih]

theorem confirmGuess_noop_nosel {s : GameState} (h : s.selectedCode = none) :
    confirmGuess s = s := by
  cases htgt : s.targetCode <;> simp [confirmGuess, h, htgt]

theorem confirmGuess_noop_notgt {s : GameState} (h : s.targetCode = none) :
    confirmGuess s = s := by
  cases hsel : s.selectedCode <;> simp [confirmGuess, h, hsel]

theorem confirmGuess_wrong {s : GameState} {a b : String}
    (hsel : s.selectedCode = some a) (htgt : s.targetCode = some b) (hne : a ≠ b) :
    confirmGuess s =
      { s with reveal := true, isCorrect := some false,
               failedCodes := addSet s.failedCodes b } := by
  simp only [confirmGuess, hsel, htgt]
  rw [if_neg hne]
  simp [hne]

theorem confirmGuess_correct_shape {s : GameState} {t : String}
    (hsel : s.selectedCode = some t) (htgt : s.targetCode = some t) :
    confirmGuess s = confirmCorrectResult t s := by
  simp only [confirmGuess, hsel, htgt]
  cases hpr : alookup t s.progressByCode with
  | some p =>
      cases hrem : alookup t s.remainingStagesByCode <;>
        simp [confirmCorrectResult, getProgress, hpr, hrem, hsel, htgt]
  | none =>
      cases hrem : alookup t s.remainingStagesByCode <;>
        simp [confirmCorrectResult, getProgress, hpr, hrem, aset_aset, hsel, htgt]

theorem forall_avail_iff {s : GameState} {code : String} {P : Stage → Prop} :
    (∀ st ∈ getAvailableStages s code, P st) ↔
      (P Stage.name ∧
        ((flagsActive s && countryFlagPresent s code) = true → P Stage.flag) ∧
        ((capitalsActive s && countryCapitalPresent s code) = true → P Stage.capital)) := by
  constructor
  · intro h
    exact ⟨h _ (mem_getAvailableStages.mpr (Or.inl rfl)),
      fun hf => h _ (mem_getAvailableStages.mpr (Or.inr (Or.inl ⟨rfl, hf⟩))),
      fun hc => h _ (mem_getAvailableStages.mpr (Or.inr (Or.inr ⟨rfl, hc⟩)))⟩
  · rintro ⟨h1, h2, h3⟩ st hst
    rcases mem_getAvailableStages.mp hst with rfl | ⟨rfl, hf⟩ | ⟨rfl, hc⟩
    exacts [h1, h2 hf, h3 hc]

theorem listHas_avail_flag (s : GameState) (code : String) :
    listHas (getAvailableStages s code) Stage.flag
      = (flagsActive s && countryFlagPresent s code) := by
  cases h : flagsActive s && countryFlagPresent s code <;>
    simp [listHas, mem_getAvailableStages, h]

theorem listHas_avail_capital (s : GameState) (code : String) :
    listHas (getAvailableStages s code) Stage.capital
      = (capitalsActive s && countryCapitalPresent s code) := by
  cases h : capitalsActive s && countryCapitalPresent s code <;>
    simp [listHas, mem_getAvailableStages, h]

/-- C1: for every entity code, `isCodeComplete` holds iff the name stage is
done and every applicable stage is done: as a boolean identity it equals
`nameDone && (!flagApplicable || flagDone) && (!capitalApplicable || capitalDone)`,
where a stage is applicable exactly when `getAvailableStages` lists it (data
prerequisite present and the corresponding difficulty toggle active); and
propositionally it holds iff `nameDone` and every stage of
`getAvailableStages` is marked done. -/
theorem C1_isComplete_iff_every_applicable_done (s : GameState) (code : String)
    (p : Progress) :
    (isCodeComplete s code p
      = (p.name && (!(listHas (getAvailableStages s code) Stage.flag) || p.flag)
          && (!(listHas (getAvailableStages s code) Stage.capital) || p.capital))) ∧
    (isCodeComplete s code p = true ↔
      (p.name = true ∧ ∀ st ∈ getAvailableStages s code, isStageComplete p st = true)) := by
  constructor
  · rw [listHas_avail_flag, listHas_avail_capital]
    rfl
  · rw [forall_avail_iff]
    show (let hasFlag := flagsActive s && countryFlagPresent s code
          let hasCapital := capitalsActive s && countryCapitalPresent s code
          p.name && (!hasFlag || p.flag) && (!hasCapital || p.capital)) = true ↔ _
    cases hf : flagsActive s && countryFlagPresent s code <;>
      cases hc : capitalsActive s && countryCapitalPresent s code <;>
        cases hn : p.name <;>
          simp [isStageComplete, hn]

theorem confirmCorrectResult_fields (t : String) (s : GameState) :
    (confirmCorrectResult t s).isCorrect = some true ∧
    (confirmCorrectResult t s).reveal = true ∧
    (confirmCorrectResult t s).failedCodes = s.failedCodes ∧
    (confirmCorrectResult t s).targetCode = s.targetCode ∧
    (confirmCorrectResult t s).selectedCode = s.selectedCode ∧
    (confirmCorrectResult t s).stage = s.stage ∧
    (confirmCorrectResult t s).countries = s.countries ∧
    (confirmCorrectResult t s).flagsEnabled = s.flagsEnabled ∧
    (confirmCorrectResult t s).capitalsEnabled = s.capitalsEnabled ∧
    (confirmCorrectResult t s).supportsFlags = s.supportsFlags ∧
    (confirmCorrectResult t s).supportsCapitals = s.supportsCapitals ∧
    (confirmCorrectResult t s).progressByCode
      = aset t (markStage ((alookup t s.progressByCode).getD defaultProgress) s.stage)
          s.progressByCode := by
  simp only [confirmCorrectResult]
  cases alookup t s.remainingStagesByCode <;> split <;> simp

/-- C2: with `selectedCode` and `targetCode` both set and equal, `confirmGuess`
reports a correct guess, marks the current stage done in the target's Progress
entry, and leaves `failedCodes` unchanged; with them set and different it adds
the target to `failedCodes` — whatever the stage and the existing progress. -/
theorem C2_guess_determinism (s : GameState) (a b : String)
    (hsel : s.selectedCode = some a) (htgt : s.targetCode = some b) :
    (a = b →
      (confirmGuess s).isCorrect = some true ∧
      (confirmGuess s).failedCodes = s.failedCodes ∧
      alookup b (confirmGuess s).progressByCode
        = some (markStage ((alookup b s.progressByCode).getD defaultProgress) s.stage) ∧
      (∀ p', alookup b (confirmGuess s).progressByCode = some p' →
        isStageComplete p' s.stage = true)) ∧
    (a ≠ b → b ∈ (confirmGuess s).failedCodes) := by
  constructor
  · rintro rfl
    rw [confirmGuess_correct_shape hsel htgt]
    obtain ⟨h1, _, h3, _, _, _, _, _, _, _, _, h12⟩ := confirmCorrectResult_fields a s
    refine ⟨h1, h3, ?_, ?_⟩
    · rw [h12]
      exact alookup_aset_self _ _ _
    · intro p' hp'
      rw [h12, alookup_aset_self] at hp'
      injection hp' with hp'
      rw [← hp']
      exact markStage_done _ _
  · intro hne
    rw [confirmGuess_wrong hsel htgt hne]
    exact mem_addSet.mpr (Or.inr rfl)

/-- Witness for C2 at a concrete correct guess: FR guessed while FR is the
target after the sample load. -/
theorem C2_guess_determinism_witness :
    (confirmGuess (handleGuess "FR" sampleLoaded)).isCorrect = some true :=
  ((C2_guess_determinism (handleGuess "FR" sampleLoaded) "FR" "FR"
    (by decide) (by decide)).1 rfl).1

/-- C9: with both codes set and different, `confirmGuess` changes only
`failedCodes`, `revealed` and `lastGuessCorrect`; the Progress map, the
stage queues, `foundCodes`, `targetCode`, `stage` and `selectedCode` keep
their values. -/
theorem C9_incorrect_confirm_frame (s : GameState) (a b : String)
    (hsel : s.selectedCode = some a) (htgt : s.targetCode = some b) (hne : a ≠ b) :
    (confirmGuess s).progressByCode = s.progressByCode ∧
    (confirmGuess s).remainingStagesByCode = s.remainingStagesByCode ∧
    (confirmGuess s).foundCodes = s.foundCodes ∧
    (confirmGuess s).targetCode = s.targetCode ∧
    (confirmGuess s).stage = s.stage ∧
    (confirmGuess s).selectedCode = s.selectedCode ∧
    (confirmGuess s).countries = s.countries ∧
    (confirmGuess s).reveal = true ∧
    (confirmGuess s).isCorrect = some false ∧
    (confirmGuess s).failedCodes = addSet s.failedCodes b := by
  rw [confirmGuess_wrong hsel htgt hne]
  exact ⟨rfl, rfl, rfl, rfl, rfl, rfl, rfl, rfl, rfl, rfl⟩

/-- Witness for C9 at a concrete wrong guess: DE guessed while FR is the
target after the sample load. -/
theorem C9_incorrect_confirm_frame_witness :
    (confirmGuess (handleGuess "DE" sampleLoaded)).progressByCode
      = (handleGuess "DE" sampleLoaded).progressByCode :=
  (C9_incorrect_confirm_frame (handleGuess "DE" sampleLoaded) "DE" "FR"
    (by decide) (by decide) (by decide)).1

theorem pickApply_fields (r1 r2 : Nat → Nat) (c : String) (s : GameState) :
    (pickApply r1 r2 c s).targetCode = some c ∧
    (pickApply r1 r2 c s).selectedCode = none ∧
    (pickApply r1 r2 c s).reveal = false ∧
    (pickApply r1 r2 c s).isCorrect = none ∧
    (pickApply r1 r2 c s).foundCodes = s.foundCodes ∧
    (pickApply r1 r2 c s).failedCodes = s.failedCodes ∧
    (pickApply r1 r2 c s).countries = s.countries ∧
    (pickApply r1 r2 c s).flagsEnabled = s.flagsEnabled ∧
    (pickApply r1 r2 c s).capitalsEnabled = s.capitalsEnabled ∧
    (pickApply r1 r2 c s).supportsFlags = s.supportsFlags ∧
    (pickApply r1 r2 c s).supportsCapitals = s.supportsCapitals ∧
    (pickApply r1 r2 c s).errorMessage = s.errorMessage ∧
    (pickApply r1 r2 c s).loading = s.loading ∧
    (pickApply r1 r2 c s).activeMapId = s.activeMapId ∧
    (pickApply r1 r2 c s).stage
      = (getStageForCode r1 r2 c { s with
          targetCode := some c, selectedCode := none, reveal := false, isCorrect := none }).1 ∧
    (pickApply r1 r2 c s).progressByCode
      = ((getProgress c { s with
          targetCode := some c, selectedCode := none, reveal := false, isCorrect := none
          }).2).progressByCode := by
  obtain ⟨q, hq⟩ := getStageForCode_snd_shape r1 r2 c
    { s with targetCode := some c, selectedCode := none, reveal := false, isCorrect := none }
  simp only [pickApply, hq, getProgress_snd_eq2]
  simp

/-- C3: `pickNewTarget` picks the new target only from loaded codes outside
`foundCodes` and `failedCodes`, and with an empty candidate pool it returns
the state unchanged in every field. -/
theorem C3_pick_only_from_pool (ri : Nat) (r1 r2 : Nat → Nat) (s : GameState) :
    (candidatePool s = [] → pickNewTarget ri r1 r2 s = s) ∧
    (candidatePool s ≠ [] →
      ∃ c, (pickNewTarget ri r1 r2 s).targetCode = some c ∧
        c ∈ s.countries.map Prod.fst ∧ c ∉ s.foundCodes ∧ c ∉ s.failedCodes) := by
  constructor
  · intro h
    exact pickNewTarget_of_empty h ri r1 r2
  · intro h
    obtain ⟨c, hc, heq⟩ := pickNewTarget_spec h ri r1 r2
    obtain ⟨hc1, hc2, hc3⟩ := mem_candidatePool.mp hc
    refine ⟨c, ?_, hc1, hc2, hc3⟩
    rw [heq]
    exact (pickApply_fields r1 r2 c s).1

/-- Witness for C3: after the sample load and a correct FR guess, the pool
still holds DE, and the empty-pool branch fires on an exhausted state. -/
theorem C3_pick_only_from_pool_witness :
    candidatePool sampleLoaded ≠ [] ∧
      ∃ c, (pickNewTarget 0 zOracle zOracle sampleLoaded).targetCode = some c ∧
        c ∈ sampleLoaded.countries.map Prod.fst ∧
        c ∉ sampleLoaded.foundCodes ∧ c ∉ sampleLoaded.failedCodes :=
  ⟨by decide, (C3_pick_only_from_pool 0 zOracle zOracle sampleLoaded).2 (by decide)⟩

theorem isEmpty_false_of_ne {m : String} (h : m ≠ "") : m.isEmpty = false := by
  cases he : m.isEmpty
  · rfl
  · exact absurd ((String.isEmpty_iff m).mp he) h

theorem actionDisabled_of_error {s : GameState} (h : s.errorMessage ≠ "") :
    actionDisabled s = true := by
  unfold actionDisabled
  rw [isEmpty_false_of_ne h]
  simp

theorem candidatePool_nil_of_countries_nil {s : GameState} (h : s.countries = []) :
    candidatePool s = [] := by
  simp [candidatePool, h]

theorem refreshFoundCodes_shape (s : GameState) :
    refreshFoundCodes s = { s with foundCodes :=
      ((s.progressByCode.filter (fun kp => isCodeComplete s kp.1 kp.2)).map Prod.fst) } := rfl

theorem loadMapFailure_fields (next : MapConfig) (msg : String) (s : GameState) :
    (loadMapFailure next msg s).errorMessage = msg ∧
    (loadMapFailure next msg s).targetCode = none ∧
    (loadMapFailure next msg s).countries = [] := by
  simp only [loadMapFailure, loadMapReject, loadMapStart, resetProgress]
  split <;> split <;> simp

/-- C8: a failed load with every data source exhausted (the provider's
terminal rejection, message non-empty) leaves the engine with no target, the
error message set and the action disabled; and every user operation —
selection, confirmation, the primary action, a reset, a difficulty toggle —
preserves that state until a successful load replaces it. -/
theorem C8_total_failure_terminal (next : MapConfig) (msg : String) (hmsg : msg ≠ "")
    (s : GameState) :
    loadErrorState msg (loadMapFailure next msg s) ∧
    (∀ s', loadErrorState msg s' →
      (∀ code, loadErrorState msg (handleGuess code s')) ∧
      loadErrorState msg (confirmGuess s') ∧
      (∀ ri r1 r2, loadErrorState msg (handlePrimaryAction ri r1 r2 s')) ∧
      (∀ ri r1 r2, loadErrorState msg (resetGame ri r1 r2 s')) ∧
      (∀ b r1 r2 r3, loadErrorState msg (setFlagsEnabled b r1 r2 r3 s')) ∧
      (∀ b r1 r2 r3, loadErrorState msg (setCapitalsEnabled b r1 r2 r3 s'))) := by
  constructor
  · obtain ⟨herr, htgt, hcty⟩ := loadMapFailure_fields next msg s
    exact ⟨herr, htgt, hcty, actionDisabled_of_error (by rw [herr]; exact hmsg)⟩
  · rintro s' ⟨herr, htgt, hcty, hdis⟩
    have hne : s'.errorMessage ≠ "" := by
      rw [herr]
      exact hmsg
    refine ⟨?_, ?_, ?_, ?_, ?_, ?_⟩
    · intro code
      unfold handleGuess
      split
      · exact ⟨herr, htgt, hcty, hdis⟩
      · exact ⟨herr, htgt, hcty, actionDisabled_of_error hne⟩
    · rw [confirmGuess_noop_notgt htgt]
      exact ⟨herr, htgt, hcty, hdis⟩
    · intro ri r1 r2
      unfold handlePrimaryAction
      rw [if_pos hdis]
      exact ⟨herr, htgt, hcty, hdis⟩
    · intro ri r1 r2
      unfold resetGame
      have hv : candidatePool (resetProgress s') = [] :=
        candidatePool_nil_of_countries_nil (by simpa [resetProgress] using hcty)
      rw [pickNewTarget_of_empty hv]
      exact ⟨herr, rfl, hcty, actionDisabled_of_error hne⟩
    · intro b r1 r2 r3
      simp only [setFlagsEnabled, onTogglesChanged, refreshFoundCodes]
      rw [htgt]
      exact ⟨herr, rfl, hcty, actionDisabled_of_error hne⟩
    · intro b r1 r2 r3
      simp only [setCapitalsEnabled, onTogglesChanged, refreshFoundCodes]
      rw [htgt]
      exact ⟨herr, rfl, hcty, actionDisabled_of_error hne⟩

/-- Witness for C8: the provider's terminal error message on a fresh state. -/
theorem C8_total_failure_terminal_witness :
    loadErrorState "Failed to load country data."
      (loadMapFailure mapA "Failed to load country data."
        (initState false false "europe" true true)) :=
  (C8_total_failure_terminal mapA "Failed to load country data." (by decide)
    (initState false false "europe" true true)).1

theorem pickNewTarget_frame (ri : Nat) (r1 r2 : Nat → Nat) (s : GameState) :
    (pickNewTarget ri r1 r2 s).countries = s.countries ∧
    (pickNewTarget ri r1 r2 s).errorMessage = s.errorMessage ∧
    (pickNewTarget ri r1 r2 s).activeMapId = s.activeMapId ∧
    (pickNewTarget ri r1 r2 s).flagsEnabled = s.flagsEnabled ∧
    (pickNewTarget ri r1 r2 s).capitalsEnabled = s.capitalsEnabled ∧
    (pickNewTarget ri r1 r2 s).supportsFlags = s.supportsFlags ∧
    (pickNewTarget ri r1 r2 s).supportsCapitals = s.supportsCapitals ∧
    (pickNewTarget ri r1 r2 s).loading = s.loading ∧
    (pickNewTarget ri r1 r2 s).foundCodes = s.foundCodes ∧
    (pickNewTarget ri r1 r2 s).failedCodes = s.failedCodes := by
  by_cases h : candidatePool s = []
  · rw [pickNewTarget_of_empty h]
    exact ⟨rfl, rfl, rfl, rfl, rfl, rfl, rfl, rfl, rfl, rfl⟩
  · obtain ⟨c, _, heq⟩ := pickNewTarget_spec h ri r1 r2
    rw [heq]
    obtain ⟨_, _, _, _, h5, h6, h7, h8, h9, h10, h11, h12, h13, h14, _, _⟩ :=
      pickApply_fields r1 r2 c s
    exact ⟨h7, h12, h14, h8, h9, h10, h11, h13, h5, h6⟩

/-- C5 counterexample: the claimed discard policy is false of the code. With
map A's load still pending, a switch to map B starts and resolves; when the
stale A response then resolves, `loadMapResolve` applies it although A is no
longer the active map, overwriting map B's loaded snapshot. -/
theorem C5_counterexample_stale_overwrite :
    ¬ (∀ (next : MapConfig) (result : List (String × CountryInfo)) (ri : Nat)
        (r1 r2 : Nat → Nat) (s : GameState),
        next.id ≠ s.activeMapId → loadMapResolve next result ri r1 r2 s = s) := by
  intro h
  have hx := h mapA sampleResult 0 zOracle zOracle
    (loadMapResolve mapB [] 0 zOracle zOracle
      (loadMapStart mapB (loadMapStart mapA (initState false false "europe" true true))))
    (by decide)
  exact absurd (congrArg GameState.countries hx) (by decide)

/-- C5 amended: the engine does not key in-flight loads to the requested
dataset: a resolving load applies its result unconditionally, even when its
request is no longer the active one — the load that resolves last wins — and
the stale resolution raises no error (the error message is untouched). -/
theorem C5_amended_last_resolver_wins (next : MapConfig)
    (result : List (String × CountryInfo)) (ri : Nat) (r1 r2 : Nat → Nat)
    (s : GameState) (_hstale : next.id ≠ s.activeMapId) :
    (loadMapResolve next result ri r1 r2 s).countries = result ∧
    (loadMapResolve next result ri r1 r2 s).errorMessage = s.errorMessage ∧
    (loadMapResolve next result ri r1 r2 s).activeMapId = s.activeMapId ∧
    (loadMapResolve next result ri r1 r2 s).loading = false := by
  have hf := pickNewTarget_frame ri r1 r2 { s with countries := result }
  unfold loadMapResolve
  refine ⟨?_, ?_, ?_, rfl⟩
  · show (pickNewTarget ri r1 r2 { s with countries := result }).countries = result
    rw [hf.1]
  · show (pickNewTarget ri r1 r2 { s with countries := result }).errorMessage
      = s.errorMessage
    rw [hf.2.1]
  · show (pickNewTarget ri r1 r2 { s with countries := result }).activeMapId
      = s.activeMapId
    rw [hf.2.2.1]

/-- Witness for the amended C5 at the concrete two-switch trace: the stale
map A result ends up as the loaded snapshot. -/
theorem C5_amended_last_resolver_wins_witness :
    (loadMapResolve mapA sampleResult 0 zOracle zOracle
      (loadMapResolve mapB [] 0 zOracle zOracle
        (loadMapStart mapB (loadMapStart mapA
          (initState false false "europe" true true))))).countries = sampleResult :=
  (C5_amended_last_resolver_wins mapA sampleResult 0 zOracle zOracle _ (by decide)).1

/-- C7: for an entity whose applicable stages under the old settings are all
done, a toggle change that makes a further not-yet-done stage applicable
causes `getStageForCode` to return a stage that is applicable under the new
settings, not yet done — hence never one of the previously-done applicable
stages — so a fully-mastered entity is re-served only for newly applicable
stages. -/
theorem C7_toggle_reshuffle_new_stage (sOld : GameState) (fe ce : Bool)
    (code : String) (p : Progress) (st₀ : Stage) (r1 r2 : Nat → Nat)
    (hp : alookup code sOld.progressByCode = some p)
    (hold : ∀ st ∈ getAvailableStages sOld code, isStageComplete p st = true)
    (hnew : st₀ ∈ getAvailableStages
      { sOld with flagsEnabled := fe, capitalsEnabled := ce } code)
    (hnd : isStageComplete p st₀ = false) :
    (getStageForCode r1 r2 code { sOld with flagsEnabled := fe, capitalsEnabled := ce }).1
      ∈ getAvailableStages { sOld with flagsEnabled := fe, capitalsEnabled := ce } code ∧
    isStageComplete p
      (getStageForCode r1 r2 code { sOld with flagsEnabled := fe, capitalsEnabled := ce }).1
      = false ∧
    (getStageForCode r1 r2 code { sOld with flagsEnabled := fe, capitalsEnabled := ce }).1
      ∉ getAvailableStages sOld code := by
  have hfst : (getProgress code { sOld with flagsEnabled := fe, capitalsEnabled := ce }).1
      = p := by
    rw [getProgress_fst]
    show (alookup code sOld.progressByCode).getD defaultProgress = p
    rw [hp]
    rfl
  have hnd' : isStageComplete
      (getProgress code { sOld with flagsEnabled := fe, capitalsEnabled := ce }).1 st₀
      = false := by
    rw [hfst]
    exact hnd
  have h := @getStageForCode_notDone r1 r2 code
    { sOld with flagsEnabled := fe, capitalsEnabled := ce } st₀ hnew hnd'
  refine ⟨h.1, ?_, ?_⟩
  · have hr := h.2.1
    rwa [hfst] at hr
  · intro hmem
    have hdone := hold _ hmem
    have hnotdone := h.2.1
    rw [hfst] at hnotdone
    rw [hdone] at hnotdone
    exact absurd hnotdone (by decide)

/-- Witness for C7: FR has its only applicable stage (name) done; turning
flags on re-serves FR with a stage outside the old applicable list. -/
theorem C7_toggle_reshuffle_new_stage_witness :
    (getStageForCode zOracle zOracle "FR"
      { (confirmGuess (handleGuess "FR" sampleLoaded)) with
        flagsEnabled := true, capitalsEnabled := false }).1
      ∉ getAvailableStages (confirmGuess (handleGuess "FR" sampleLoaded)) "FR" :=
  (C7_toggle_reshuffle_new_stage (confirmGuess (handleGuess "FR" sampleLoaded))
    true false "FR" { name := true, flag := false, capital := false } Stage.flag
    zOracle zOracle (by decide) (by decide) (by decide) (by decide)).2.2

theorem refreshFoundCodes_target (s : GameState) :
    (refreshFoundCodes s).targetCode = s.targetCode := rfl

theorem refreshFoundCodes_stage (s : GameState) :
    (refreshFoundCodes s).stage = s.stage := rfl

theorem refreshFoundCodes_progress (s : GameState) :
    (refreshFoundCodes s).progressByCode = s.progressByCode := rfl

theorem getAvailableStages_refresh (s : GameState) (c : String) :
    getAvailableStages (refreshFoundCodes s) c = getAvailableStages s c :=
  getAvailableStages_congr c rfl rfl rfl rfl rfl

theorem onTogglesChanged_cases (r1 r2 r3 : Nat → Nat) (s : GameState) :
    (s.targetCode = none ∧ onTogglesChanged r1 r2 r3 s = refreshFoundCodes s) ∨
    (∃ tgt, s.targetCode = some tgt ∧
      ((listHas (getAvailableStages s tgt) s.stage = true ∧
          onTogglesChanged r1 r2 r3 s = applySyncTail r3 tgt (refreshFoundCodes s)) ∨
        (listHas (getAvailableStages s tgt) s.stage = false ∧
          onTogglesChanged r1 r2 r3 s
            = applySyncTail r3 tgt (stageReset r1 r2 tgt (refreshFoundCodes s))))) := by
  cases htc : s.targetCode with
  | none =>
      left
      refine ⟨rfl, ?_⟩
      simp only [onTogglesChanged, refreshFoundCodes_target]
      rw [htc]
  | some tgt =>
      right
      refine ⟨tgt, rfl, ?_⟩
      cases hst : listHas (getAvailableStages s tgt) s.stage with
      | true =>
          left
          refine ⟨rfl, ?_⟩
          simp only [onTogglesChanged, refreshFoundCodes_target]
          rw [htc]
          simp only [getAvailableStages_refresh, refreshFoundCodes_stage, hst]
          rfl
      | false =>
          right
          refine ⟨rfl, ?_⟩
          simp only [onTogglesChanged, refreshFoundCodes_target]
          rw [htc]
          simp only [getAvailableStages_refresh, refreshFoundCodes_stage, hst]
          rfl

theorem applySyncTail_fields (r3 : Nat → Nat) (tgt : String) (s : GameState) :
    (applySyncTail r3 tgt s).loading = s.loading ∧
    (applySyncTail r3 tgt s).errorMessage = s.errorMessage ∧
    (applySyncTail r3 tgt s).countries = s.countries ∧
    (applySyncTail r3 tgt s).flagsEnabled = s.flagsEnabled ∧
    (applySyncTail r3 tgt s).capitalsEnabled = s.capitalsEnabled ∧
    (applySyncTail r3 tgt s).targetCode = s.targetCode ∧
    (applySyncTail r3 tgt s).selectedCode = s.selectedCode ∧
    (applySyncTail r3 tgt s).reveal = s.reveal ∧
    (applySyncTail r3 tgt s).isCorrect = s.isCorrect ∧
    (applySyncTail r3 tgt s).foundCodes = s.foundCodes ∧
    (applySyncTail r3 tgt s).failedCodes = s.failedCodes ∧
    (applySyncTail r3 tgt s).stage = s.stage ∧
    (applySyncTail r3 tgt s).activeMapId = s.activeMapId ∧
    (applySyncTail r3 tgt s).supportsFlags = s.supportsFlags ∧
    (applySyncTail r3 tgt s).supportsCapitals = s.supportsCapitals ∧
    (applySyncTail r3 tgt s).progressByCode = ((getProgress tgt s).2).progressByCode := by
  simp only [applySyncTail, syncRemainingStages_snd, getProgress_snd_eq2]
  simp

theorem stageReset_fields (r1 r2 : Nat → Nat) (tgt : String) (s : GameState) :
    (stageReset r1 r2 tgt s).loading = s.loading ∧
    (stageReset r1 r2 tgt s).errorMessage = s.errorMessage ∧
    (stageReset r1 r2 tgt s).countries = s.countries ∧
    (stageReset r1 r2 tgt s).flagsEnabled = s.flagsEnabled ∧
    (stageReset r1 r2 tgt s).capitalsEnabled = s.capitalsEnabled ∧
    (stageReset r1 r2 tgt s).targetCode = s.targetCode ∧
    (stageReset r1 r2 tgt s).selectedCode = none ∧
    (stageReset r1 r2 tgt s).reveal = false ∧
    (stageReset r1 r2 tgt s).isCorrect = none ∧
    (stageReset r1 r2 tgt s).foundCodes = s.foundCodes ∧
    (stageReset r1 r2 tgt s).failedCodes = s.failedCodes ∧
    (stageReset r1 r2 tgt s).stage = (getStageForCode r1 r2 tgt s).1 ∧
    (stageReset r1 r2 tgt s).activeMapId = s.activeMapId ∧
    (stageReset r1 r2 tgt s).supportsFlags = s.supportsFlags ∧
    (stageReset r1 r2 tgt s).supportsCapitals = s.supportsCapitals ∧
    (stageReset r1 r2 tgt s).progressByCode = ((getProgress tgt s).2).progressByCode := by
  obtain ⟨q, hq⟩ := getStageForCode_snd_shape r1 r2 tgt s
  simp only [stageReset, hq, getProgress_snd_eq2]
  simp

theorem getAvailableStages_applySyncTail (r3 : Nat → Nat) (tgt c : String)
    (s : GameState) :
    getAvailableStages (applySyncTail r3 tgt s) c = getAvailableStages s c := by
  unfold applySyncTail
  rw [getAvailableStages_syncRemainingStages, getAvailableStages_getProgress]

theorem getAvailableStages_stageReset (r1 r2 : Nat → Nat) (tgt c : String)
    (s : GameState) :
    getAvailableStages (stageReset r1 r2 tgt s) c = getAvailableStages s c := by
  unfold stageReset
  exact (getAvailableStages_congr c rfl rfl rfl rfl rfl).trans
    (getAvailableStages_getStageForCode r1 r2 tgt c s)

theorem applySyncTail_queue_self (r3 : Nat → Nat) (tgt : String) (s : GameState) :
    alookup tgt (applySyncTail r3 tgt s).remainingStagesByCode
      = some (syncRemainingStages r3 tgt
          (getProgress tgt s).1 (getProgress tgt s).2).1 := by
  show alookup tgt ((syncRemainingStages r3 tgt
    (getProgress tgt s).1 (getProgress tgt s).2).2).remainingStagesByCode = _
  rw [syncRemainingStages_snd]
  exact alookup_aset_self _ _ _

theorem applySyncTail_queue_other {c tgt : String} (hne : c ≠ tgt)
    (r3 : Nat → Nat) (s : GameState) :
    alookup c (applySyncTail r3 tgt s).remainingStagesByCode
      = alookup c s.remainingStagesByCode := by
  show alookup c ((syncRemainingStages r3 tgt
    (getProgress tgt s).1 (getProgress tgt s).2).2).remainingStagesByCode = _
  rw [syncRemainingStages_snd]
  show alookup c (aset tgt _ _) = _
  rw [alookup_aset_ne tgt c (fun h => hne h.symm), getProgress_rem]

theorem stageReset_queue_other {c tgt : String} (hne : c ≠ tgt)
    (r1 r2 : Nat → Nat) (s : GameState) :
    alookup c (stageReset r1 r2 tgt s).remainingStagesByCode
      = alookup c s.remainingStagesByCode := by
  show alookup c ((getStageForCode r1 r2 tgt s).2).remainingStagesByCode = _
  exact getStageForCode_queue_other hne r1 r2 s

theorem onTogglesChanged_stageOK (r1 r2 r3 : Nat → Nat) (s : GameState) :
    stageOK (onTogglesChanged r1 r2 r3 s) := by
  rcases onTogglesChanged_cases r1 r2 r3 s with ⟨htc, heq⟩ | ⟨tgt, htc, hcases⟩
  · rw [heq]
    intro t ht
    rw [refreshFoundCodes_target, htc] at ht
    exact absurd ht (by simp)
  · rcases hcases with ⟨hst, heq⟩ | ⟨hst, heq⟩
    · rw [heq]
      intro t ht
      obtain ⟨-, -, -, -, -, h6, -, -, -, -, -, h12, -, -, -, -⟩ :=
        applySyncTail_fields r3 tgt (refreshFoundCodes s)
      rw [h6, refreshFoundCodes_target, htc] at ht
      injection ht with ht'
      subst ht'
      rw [h12, refreshFoundCodes_stage, getAvailableStages_applySyncTail,
        getAvailableStages_refresh]
      exact listHas_iff.mp hst
    · rw [heq]
      intro t ht
      obtain ⟨-, -, -, -, -, h6, -, -, -, -, -, h12, -, -, -, -⟩ :=
        applySyncTail_fields r3 tgt (stageReset r1 r2 tgt (refreshFoundCodes s))
      obtain ⟨-, -, -, -, -, g6, -, -, -, -, -, g12, -, -, -, -⟩ :=
        stageReset_fields r1 r2 tgt (refreshFoundCodes s)
      rw [h6, g6, refreshFoundCodes_target, htc] at ht
      injection ht with ht'
      subst ht'
      rw [h12, g12, getAvailableStages_applySyncTail, getAvailableStages_stageReset,
        getAvailableStages_refresh]
      have := getStageForCode_fst_mem r1 r2 tgt (refreshFoundCodes s)
      rwa [getAvailableStages_refresh] at this

/-- C10: `getAvailableStages` is never empty and starts with the name stage;
`getStageForCode` always returns a stage applicable for the entity; and after
`pickNewTarget` (which preserves the property, establishing it afresh
whenever the pool is non-empty) or a difficulty-toggle reconciliation, the
session's stage is applicable for the current target. -/
theorem C10_stage_always_applicable :
    (∀ (s : GameState) (code : String),
      getAvailableStages s code ≠ [] ∧
        (getAvailableStages s code).head? = some Stage.name) ∧
    (∀ (r1 r2 : Nat → Nat) (code : String) (s : GameState),
      (getStageForCode r1 r2 code s).1 ∈ getAvailableStages s code) ∧
    (∀ (ri : Nat) (r1 r2 : Nat → Nat) (s : GameState),
      stageOK s → stageOK (pickNewTarget ri r1 r2 s)) ∧
    (∀ (b : Bool) (r1 r2 r3 : Nat → Nat) (s : GameState),
      stageOK (setFlagsEnabled b r1 r2 r3 s) ∧
        stageOK (setCapitalsEnabled b r1 r2 r3 s)) := by
  refine ⟨fun s code =>
      ⟨getAvailableStages_ne_nil s code, getAvailableStages_headName s code⟩,
    fun r1 r2 code s => getStageForCode_fst_mem r1 r2 code s, ?_, ?_⟩
  · intro ri r1 r2 s hok
    by_cases h : candidatePool s = []
    · rw [pickNewTarget_of_empty h]
      exact hok
    · obtain ⟨c, _, heq⟩ := pickNewTarget_spec h ri r1 r2
      rw [heq]
      intro t ht
      obtain ⟨h1, -, -, -, -, -, h7, h8, h9, h10, h11, -, -, -, h15, -⟩ :=
        pickApply_fields r1 r2 c s
      rw [h1] at ht
      injection ht with ht'
      subst ht'
      rw [h15]
      have e1 : getAvailableStages (pickApply r1 r2 c s) c = getAvailableStages s c :=
        getAvailableStages_congr c h8 h10 h9 h11 h7
      have e2 : getAvailableStages { s with
          targetCode := some c, selectedCode := none, reveal := false, isCorrect := none } c
          = getAvailableStages s c :=
        getAvailableStages_congr c rfl rfl rfl rfl rfl
      rw [e1]
      have := getStageForCode_fst_mem r1 r2 c { s with
        targetCode := some c, selectedCode := none, reveal := false, isCorrect := none }
      rwa [e2] at this
  · intro b r1 r2 r3 s
    exact ⟨onTogglesChanged_stageOK r1 r2 r3 _, onTogglesChanged_stageOK r1 r2 r3 _⟩

/-- Witness for C10: the pick-preservation conjunct applied after the sample
load, with the concrete state's stage/target property checked directly. -/
theorem C10_stage_always_applicable_witness :
    stageOK (pickNewTarget 0 zOracle zOracle sampleLoaded) := by
  apply C10_stage_always_applicable.2.2.1 0 zOracle zOracle sampleLoaded
  intro t ht
  have h : sampleLoaded.targetCode = some "FR" := by decide
  rw [h] at ht
  injection ht with ht'
  subst ht'
  decide

theorem isCodeComplete_default (s : GameState) (c : String) :
    isCodeComplete s c defaultProgress = false := rfl

theorem getProgress_entries_of_some {code : String} {s : GameState} {p : Progress}
    (h : alookup code s.progressByCode = some p) :
    ((getProgress code s).2).progressByCode = s.progressByCode := by
  unfold getProgress
  rw [h]

theorem onTogglesChanged_found (r1 r2 r3 : Nat → Nat) (s : GameState) :
    (onTogglesChanged r1 r2 r3 s).foundCodes = (refreshFoundCodes s).foundCodes := by
  rcases onTogglesChanged_cases r1 r2 r3 s with ⟨htc, heq⟩ | ⟨tgt, htc, ⟨hst, heq⟩ | ⟨hst, heq⟩⟩ <;>
    rw [heq]
  · obtain ⟨-, -, -, -, -, -, -, -, -, h10, -, -, -, -, -, -⟩ :=
      applySyncTail_fields r3 tgt (refreshFoundCodes s)
    exact h10
  · obtain ⟨-, -, -, -, -, -, -, -, -, h10, -, -, -, -, -, -⟩ :=
      applySyncTail_fields r3 tgt (stageReset r1 r2 tgt (refreshFoundCodes s))
    obtain ⟨-, -, -, -, -, -, -, -, -, g10, -, -, -, -, -, -⟩ :=
      stageReset_fields r1 r2 tgt (refreshFoundCodes s)
    exact h10.trans g10

theorem onTogglesChanged_frames (r1 r2 r3 : Nat → Nat) (s : GameState) :
    (onTogglesChanged r1 r2 r3 s).countries = s.countries ∧
    (onTogglesChanged r1 r2 r3 s).flagsEnabled = s.flagsEnabled ∧
    (onTogglesChanged r1 r2 r3 s).capitalsEnabled = s.capitalsEnabled ∧
    (onTogglesChanged r1 r2 r3 s).supportsFlags = s.supportsFlags ∧
    (onTogglesChanged r1 r2 r3 s).supportsCapitals = s.supportsCapitals ∧
    (onTogglesChanged r1 r2 r3 s).targetCode = s.targetCode ∧
    (onTogglesChanged r1 r2 r3 s).failedCodes = s.failedCodes ∧
    (onTogglesChanged r1 r2 r3 s).errorMessage = s.errorMessage ∧
    (onTogglesChanged r1 r2 r3 s).loading = s.loading := by
  rcases onTogglesChanged_cases r1 r2 r3 s with ⟨htc, heq⟩ | ⟨tgt, htc, ⟨hst, heq⟩ | ⟨hst, heq⟩⟩ <;>
    rw [heq]
  · exact ⟨rfl, rfl, rfl, rfl, rfl, rfl, rfl, rfl, rfl⟩
  · obtain ⟨h1, h2, h3, h4, h5, h6, -, -, -, -, h11, -, -, h14, h15, -⟩ :=
      applySyncTail_fields r3 tgt (refreshFoundCodes s)
    exact ⟨h3, h4, h5, h14, h15, h6, h11, h2, h1⟩
  · obtain ⟨h1, h2, h3, h4, h5, h6, -, -, -, -, h11, -, -, h14, h15, -⟩ :=
      applySyncTail_fields r3 tgt (stageReset r1 r2 tgt (refreshFoundCodes s))
    obtain ⟨g1, g2, g3, g4, g5, g6, -, -, -, -, g11, -, -, g14, g15, -⟩ :=
      stageReset_fields r1 r2 tgt (refreshFoundCodes s)
    exact ⟨h3.trans g3, h4.trans g4, h5.trans g5, h14.trans g14, h15.trans g15,
      h6.trans g6, h11.trans g11, h2.trans g2, h1.trans g1⟩

theorem onTogglesChanged_progress (r1 r2 r3 : Nat → Nat) (s : GameState) :
    (onTogglesChanged r1 r2 r3 s).progressByCode = s.progressByCode ∨
    ∃ t', (onTogglesChanged r1 r2 r3 s).progressByCode
      = s.progressByCode ++ [(t', defaultProgress)] := by
  rcases onTogglesChanged_cases r1 r2 r3 s with ⟨htc, heq⟩ | ⟨tgt, htc, ⟨hst, heq⟩ | ⟨hst, heq⟩⟩ <;>
    rw [heq]
  · left
    rfl
  · obtain ⟨-, -, -, -, -, -, -, -, -, -, -, -, -, -, -, h16⟩ :=
      applySyncTail_fields r3 tgt (refreshFoundCodes s)
    rcases getProgress_entries tgt (refreshFoundCodes s) with hA | hA
    · left
      rw [h16, hA, refreshFoundCodes_progress]
    · right
      exact ⟨tgt, by rw [h16, hA, refreshFoundCodes_progress]⟩
  · obtain ⟨-, -, -, -, -, -, -, -, -, -, -, -, -, -, -, h16⟩ :=
      applySyncTail_fields r3 tgt (stageReset r1 r2 tgt (refreshFoundCodes s))
    obtain ⟨-, -, -, -, -, -, -, -, -, -, -, -, -, -, -, g16⟩ :=
      stageReset_fields r1 r2 tgt (refreshFoundCodes s)
    have hsome : alookup tgt
        (stageReset r1 r2 tgt (refreshFoundCodes s)).progressByCode
        = some ((getProgress tgt (refreshFoundCodes s)).1) := by
      rw [g16]
      exact getProgress_lookup_self tgt (refreshFoundCodes s)
    have hid := getProgress_entries_of_some hsome
    rcases getProgress_entries tgt (refreshFoundCodes s) with hA | hA
    · left
      rw [h16, hid, g16, hA, refreshFoundCodes_progress]
    · right
      exact ⟨tgt, by rw [h16, hid, g16, hA, refreshFoundCodes_progress]⟩

/-- C6: flipping a difficulty toggle and then flipping it back, with no
guesses in between, restores `foundCodes` exactly (as a set of codes),
because each reconciliation recomputes `foundCodes` from scratch from the
progress entries — which the toggle watcher never alters beyond inserting
blank (incomplete) default entries. The hypothesis states that the starting
`foundCodes` agrees with completeness over the Progress entries, which every
engine-produced state satisfies. -/
theorem C6_toggle_round_trip (s : GameState) (b : Bool)
    (r1 r2 r3 u1 u2 u3 : Nat → Nat)
    (hsync : ∀ c, c ∈ s.foundCodes ↔
      ∃ p, (c, p) ∈ s.progressByCode ∧ isCodeComplete s c p = true) :
    ∀ c, c ∈ (setFlagsEnabled s.flagsEnabled u1 u2 u3
        (setFlagsEnabled b r1 r2 r3 s)).foundCodes ↔ c ∈ s.foundCodes := by
  intro c
  show c ∈ (onTogglesChanged u1 u2 u3
      { onTogglesChanged r1 r2 r3 { s with flagsEnabled := b } with
        flagsEnabled := s.flagsEnabled }).foundCodes ↔ c ∈ s.foundCodes
  rw [onTogglesChanged_found, mem_refreshFoundCodes]
  obtain ⟨hcty, hfe, hce, hsf, hscap, -, -, -, -⟩ :=
    onTogglesChanged_frames r1 r2 r3 { s with flagsEnabled := b }
  have hcomp : ∀ p, isCodeComplete
      { onTogglesChanged r1 r2 r3 { s with flagsEnabled := b } with
        flagsEnabled := s.flagsEnabled } c p = isCodeComplete s c p :=
    fun p => isCodeComplete_congr c p rfl hsf hce hscap hcty
  have hprog1 := onTogglesChanged_progress r1 r2 r3 { s with flagsEnabled := b }
  constructor
  · rintro ⟨p, hp, hcp⟩
    rw [hcomp p] at hcp
    have hp' : (c, p) ∈ (onTogglesChanged r1 r2 r3
        { s with flagsEnabled := b }).progressByCode := hp
    rcases hprog1 with hP | ⟨t', hP⟩
    · rw [hP] at hp'
      exact (hsync c).mpr ⟨p, hp', hcp⟩
    · rw [hP] at hp'
      rcases List.mem_append.mp hp' with hp'' | hp''
      · exact (hsync c).mpr ⟨p, hp'', hcp⟩
      · have hpair : (c, p) = (t', defaultProgress) := List.mem_singleton.mp hp''
        have hpd : p = defaultProgress := congrArg Prod.snd hpair
        rw [hpd, isCodeComplete_default] at hcp
        exact absurd hcp (by decide)
  · intro hc
    obtain ⟨p, hp, hcp⟩ := (hsync c).mp hc
    refine ⟨p, ?_, ?_⟩
    · show (c, p) ∈ (onTogglesChanged r1 r2 r3
        { s with flagsEnabled := b }).progressByCode
      rcases hprog1 with hP | ⟨t', hP⟩
      · rw [hP]
        exact hp
      · rw [hP]
        exact List.mem_append.mpr (Or.inl hp)
    · rw [hcomp p]
      exact hcp

/-- Witness for C6 after the sample load and a completed FR name round: the
flag toggle is flipped on and back off, and FR's membership in `foundCodes`
is restored. -/
theorem C6_toggle_round_trip_witness :
    "FR" ∈ (setFlagsEnabled
        (confirmGuess (handleGuess "FR" sampleLoaded)).flagsEnabled
        zOracle zOracle zOracle
        (setFlagsEnabled true zOracle zOracle zOracle
          (confirmGuess (handleGuess "FR" sampleLoaded)))).foundCodes ↔
      "FR" ∈ (confirmGuess (handleGuess "FR" sampleLoaded)).foundCodes := by
  apply C6_toggle_round_trip (confirmGuess (handleGuess "FR" sampleLoaded)) true
    zOracle zOracle zOracle zOracle zOracle zOracle
  intro c
  have h1 : (confirmGuess (handleGuess "FR" sampleLoaded)).foundCodes = ["FR"] := by decide
  have h2 : (confirmGuess (handleGuess "FR" sampleLoaded)).progressByCode
      = [("FR", { name := true, flag := false, capital := false })] := by decide
  rw [h1, h2]
  constructor
  · intro hc
    have hcs : c = "FR" := by simpa using hc
    subst hcs
    exact ⟨{ name := true, flag := false, capital := false }, by simp, by decide⟩
  · rintro ⟨p, hp, hcp⟩
    have := List.mem_singleton.mp hp
    have hcs : c = "FR" := congrArg Prod.fst this
    rw [hcs]
    simp

theorem stageDataOk_of_mem {s : GameState} {code : String} {st : Stage}
    (h : st ∈ getAvailableStages s code) : stageDataOk s code st := by
  rcases mem_getAvailableStages.mp h with rfl | ⟨rfl, hf⟩ | ⟨rfl, hc⟩
  · trivial
  · simp only [Bool.and_eq_true] at hf
    exact hf.2
  · simp only [Bool.and_eq_true] at hc
    exact hc.2

theorem stageDataOk_congr {s s' : GameState} (hcty : s.countries = s'.countries)
    (code : String) (st : Stage) :
    stageDataOk s code st ↔ stageDataOk s' code st := by
  cases st <;>
    simp [stageDataOk, countryFlagPresent, countryCapitalPresent, hcty]

theorem queueInv_congr {s s' : GameState}
    (hrem : s.remainingStagesByCode = s'.remainingStagesByCode)
    (hprog : s.progressByCode = s'.progressByCode)
    (hcty : s.countries = s'.countries) :
    queueInv s ↔ queueInv s' := by
  constructor <;> intro h code q hq st hst
  · rw [← hrem] at hq
    obtain ⟨h1, h2⟩ := h code q hq st hst
    exact ⟨(stageDataOk_congr hcty code st).mp h1,
      fun p hp => h2 p (by rw [hprog]; exact hp)⟩
  · rw [hrem] at hq
    obtain ⟨h1, h2⟩ := h code q hq st hst
    exact ⟨(stageDataOk_congr hcty code st).mpr h1,
      fun p hp => h2 p (by rw [← hprog]; exact hp)⟩

theorem completeSync_congr {s s' : GameState}
    (hprog : s.progressByCode = s'.progressByCode)
    (hfound : s.foundCodes = s'.foundCodes)
    (hcty : s.countries = s'.countries)
    (hfe : s.flagsEnabled = s'.flagsEnabled)
    (hsf : s.supportsFlags = s'.supportsFlags)
    (hce : s.capitalsEnabled = s'.capitalsEnabled)
    (hsc : s.supportsCapitals = s'.supportsCapitals) :
    completeSync s ↔ completeSync s' := by
  constructor <;> intro h code p hp hcc
  · rw [← hprog] at hp
    rw [← isCodeComplete_congr code p hfe hsf hce hsc hcty] at hcc
    rw [← hfound]
    exact h code p hp hcc
  · rw [hprog] at hp
    rw [isCodeComplete_congr code p hfe hsf hce hsc hcty] at hcc
    rw [hfound]
    exact h code p hp hcc

theorem queueInv_of_rem_nil {s : GameState} (h : s.remainingStagesByCode = []) :
    queueInv s := by
  intro code q hq
  rw [h] at hq
  simp [alookup] at hq

theorem completeSync_of_prog_nil {s : GameState} (h : s.progressByCode = []) :
    completeSync s := by
  intro code p hp
  rw [h] at hp
  simp [alookup] at hp

theorem not_complete_exists {s : GameState} {c : String} {p : Progress}
    (h : isCodeComplete s c p = false) :
    ∃ st ∈ getAvailableStages s c, isStageComplete p st = false := by
  by_cases hn : p.name = true
  · cases hf : flagsActive s && countryFlagPresent s c <;>
      cases hcap : capitalsActive s && countryCapitalPresent s c <;>
        simp only [isCodeComplete, hf, hcap, hn] at h
    · simp at h
    · refine ⟨Stage.capital, mem_getAvailableStages.mpr (Or.inr (Or.inr ⟨rfl, hcap⟩)), ?_⟩
      simpa [isStageComplete] using h
    · rcases (by simpa using h : p.flag = false) with hfl
      exact ⟨Stage.flag, mem_getAvailableStages.mpr (Or.inr (Or.inl ⟨rfl, hf⟩)),
        by simpa [isStageComplete] using hfl⟩
    · rcases Bool.and_eq_false_iff.mp (by simpa using h) with hfl | hcp
      · exact ⟨Stage.flag, mem_getAvailableStages.mpr (Or.inr (Or.inl ⟨rfl, hf⟩)),
          by simpa [isStageComplete] using hfl⟩
      · exact ⟨Stage.capital, mem_getAvailableStages.mpr (Or.inr (Or.inr ⟨rfl, hcap⟩)),
          by simpa [isStageComplete] using hcp⟩
  · exact ⟨Stage.name, mem_getAvailableStages.mpr (Or.inl rfl),
      by simpa [isStageComplete] using hn⟩

theorem getProgress_lookup_cases {code t : String} {s : GameState} {p : Progress}
    (h : alookup code ((getProgress t s).2).progressByCode = some p) :
    alookup code s.progressByCode = some p ∨ p = defaultProgress := by
  by_cases hct : code = t
  · subst hct
    rw [getProgress_lookup_self] at h
    injection h with h
    rw [getProgress_fst] at h
    cases hl : alookup code s.progressByCode with
    | none =>
        right
        rw [hl] at h
        exact h.symm
    | some p0 =>
        left
        rw [hl] at h
        have h' : p0 = p := h
        rw [h']
  · rw [getProgress_lookup_other hct] at h
    exact Or.inl h

theorem advanceRound_eq (ri : Nat) (r1 r2 : Nat → Nat) (s : GameState) :
    advanceRound ri r1 r2 s = pickNewTarget ri r1 r2 s := by
  unfold advanceRound
  cases s.targetCode <;> rfl

theorem engineInv_getStageForCode {s : GameState} {c : String} (r1 r2 : Nat → Nat)
    (hq : queueInv s) (hcs : completeSync s) (hnf : c ∉ s.foundCodes) :
    queueInv ((getStageForCode r1 r2 c s).2) ∧
      completeSync ((getStageForCode r1 r2 c s).2) := by
  have hex : ∃ st ∈ getAvailableStages s c,
      isStageComplete (getProgress c s).1 st = false := by
    cases hl : alookup c s.progressByCode with
    | none =>
        have hp1 : (getProgress c s).1 = defaultProgress := by
          rw [getProgress_fst, hl]
          rfl
        exact ⟨Stage.name, mem_getAvailableStages.mpr (Or.inl rfl), by rw [hp1]; rfl⟩
    | some p =>
        have hp1 : (getProgress c s).1 = p := by
          rw [getProgress_fst, hl]
          rfl
        have hni : isCodeComplete s c p = false := by
          cases hcc : isCodeComplete s c p
          · rfl
          · exact absurd (hcs c p hl hcc) hnf
        obtain ⟨st, hstm, hnd⟩ := not_complete_exists hni
        exact ⟨st, hstm, by rw [hp1]; exact hnd⟩
  obtain ⟨st₀, hst₀, hnd₀⟩ := hex
  have G := @getStageForCode_notDone r1 r2 c s st₀ hst₀ hnd₀
  obtain ⟨qq, hshape⟩ := getStageForCode_snd_shape r1 r2 c s
  have hcty : ((getStageForCode r1 r2 c s).2).countries = s.countries := by
    rw [hshape, getProgress_snd_eq]
  have hfound : ((getStageForCode r1 r2 c s).2).foundCodes = s.foundCodes := by
    rw [hshape, getProgress_snd_eq]
  have hfe : ((getStageForCode r1 r2 c s).2).flagsEnabled = s.flagsEnabled := by
    rw [hshape, getProgress_snd_eq]
  have hsf : ((getStageForCode r1 r2 c s).2).supportsFlags = s.supportsFlags := by
    rw [hshape, getProgress_snd_eq]
  have hce : ((getStageForCode r1 r2 c s).2).capitalsEnabled = s.capitalsEnabled := by
    rw [hshape, getProgress_snd_eq]
  have hsc : ((getStageForCode r1 r2 c s).2).supportsCapitals = s.supportsCapitals := by
    rw [hshape, getProgress_snd_eq]
  have hprogR : ((getStageForCode r1 r2 c s).2).progressByCode
      = ((getProgress c s).2).progressByCode := by
    rw [hshape]
  constructor
  · intro code q hq' st hst
    by_cases hct : code = c
    · subst hct
      rw [G.2.2] at hq'
      injection hq' with hq'
      subst hq'
      have hm := mem_syncRemainingStages hst
      refine ⟨?_, ?_⟩
      · have h1 := hm.1
        rw [getAvailableStages_getProgress] at h1
        exact (stageDataOk_congr hcty code st).mpr (stageDataOk_of_mem h1)
      · intro p hp
        rw [hprogR, getProgress_lookup_self] at hp
        injection hp with hp
        rw [← hp]
        exact hm.2
    · rw [getStageForCode_queue_other hct r1 r2 s] at hq'
      obtain ⟨hd, hdone⟩ := hq code q hq' st hst
      refine ⟨(stageDataOk_congr hcty code st).mpr hd, ?_⟩
      intro p hp
      rw [hprogR, getProgress_lookup_other hct] at hp
      exact hdone p hp
  · intro code p hp hcomp
    rw [isCodeComplete_congr code p hfe hsf hce hsc hcty] at hcomp
    rw [hprogR] at hp
    rcases getProgress_lookup_cases hp with hpS | hpd
    · have := hcs code p hpS hcomp
      rw [hfound]
      exact this
    · rw [hpd, isCodeComplete_default] at hcomp
      exact absurd hcomp (by decide)

theorem engineInv_pickApply {s : GameState} {c : String} (r1 r2 : Nat → Nat)
    (hq : queueInv s) (hcs : completeSync s) (hnf : c ∉ s.foundCodes) :
    queueInv (pickApply r1 r2 c s) ∧ completeSync (pickApply r1 r2 c s) := by
  have hq' : queueInv { s with
      targetCode := some c, selectedCode := none, reveal := false, isCorrect := none } :=
    (queueInv_congr rfl rfl rfl).mp hq
  have hcs' : completeSync { s with
      targetCode := some c, selectedCode := none, reveal := false, isCorrect := none } :=
    (completeSync_congr rfl rfl rfl rfl rfl rfl rfl).mp hcs
  have hnf' : c ∉ ({ s with
      targetCode := some c, selectedCode := none, reveal := false, isCorrect := none
      } : GameState).foundCodes := hnf
  have H := engineInv_getStageForCode r1 r2 hq' hcs' hnf'
  exact ⟨(queueInv_congr rfl rfl rfl).mp H.1,
    (completeSync_congr rfl rfl rfl rfl rfl rfl rfl).mp H.2⟩

theorem engineInv_pickNewTarget {s : GameState} (ri : Nat) (r1 r2 : Nat → Nat)
    (hq : queueInv s) (hcs : completeSync s) :
    queueInv (pickNewTarget ri r1 r2 s) ∧ completeSync (pickNewTarget ri r1 r2 s) := by
  by_cases h : candidatePool s = []
  · rw [pickNewTarget_of_empty h]
    exact ⟨hq, hcs⟩
  · obtain ⟨c, hc, heq⟩ := pickNewTarget_spec h ri r1 r2
    rw [heq]
    exact engineInv_pickApply r1 r2 hq hcs (mem_candidatePool.mp hc).2.1

theorem confirmCorrectResult_queue (t : String) (s : GameState) :
    ((confirmCorrectResult t s).remainingStagesByCode = s.remainingStagesByCode ∧
      alookup t s.remainingStagesByCode = none) ∨
    (∃ rs, alookup t s.remainingStagesByCode = some rs ∧
      (confirmCorrectResult t s).remainingStagesByCode
        = aset t (rs.filter (fun stageValue => !decide (stageValue = s.stage)))
            s.remainingStagesByCode) := by
  simp only [confirmCorrectResult]
  cases h : alookup t s.remainingStagesByCode with
  | none =>
      left
      refine ⟨?_, rfl⟩
      split <;> rfl
  | some rs =>
      right
      refine ⟨rs, rfl, ?_⟩
      split <;> rfl

theorem confirmCorrectResult_found_cond (t : String) (s : GameState) :
    (confirmCorrectResult t s).foundCodes = addSet s.foundCodes t ∨
    ((confirmCorrectResult t s).foundCodes = s.foundCodes ∧
      isCodeComplete s t
        (markStage ((alookup t s.progressByCode).getD defaultProgress) s.stage)
        = false) := by
  simp only [confirmCorrectResult]
  cases hrem : alookup t s.remainingStagesByCode <;> split
  · left
    rfl
  · rename_i hcond
    right
    refine ⟨rfl, ?_⟩
    cases hy : isCodeComplete s t
        (markStage ((alookup t s.progressByCode).getD defaultProgress) s.stage)
    · rfl
    · exact absurd hy hcond
  · left
    rfl
  · rename_i hcond
    right
    refine ⟨rfl, ?_⟩
    cases hy : isCodeComplete s t
        (markStage ((alookup t s.progressByCode).getD defaultProgress) s.stage)
    · rfl
    · exact absurd hy hcond

theorem engineInv_confirmCorrect {s : GameState} {t : String}
    (hq : queueInv s) (hcs : completeSync s) :
    queueInv (confirmCorrectResult t s) ∧ completeSync (confirmCorrectResult t s) := by
  obtain ⟨-, -, -, -, -, -, h7, h8, h9, h10, h11, h12⟩ := confirmCorrectResult_fields t s
  constructor
  · intro code q hq' st hst
    rcases confirmCorrectResult_queue t s with ⟨hqe, hnone⟩ | ⟨rs, hsome, hqe⟩
    · rw [hqe] at hq'
      obtain ⟨hd, hdone⟩ := hq code q hq' st hst
      refine ⟨(stageDataOk_congr h7 code st).mpr hd, ?_⟩
      intro p hp
      rw [h12] at hp
      by_cases hct : code = t
      · subst hct
        rw [hnone] at hq'
        cases hq'
      · rw [alookup_aset_ne t code (fun h => hct h.symm)] at hp
        exact hdone p hp
    · by_cases hct : code = t
      · subst hct
        rw [hqe, alookup_aset_self] at hq'
        injection hq' with hq'
        subst hq'
        have hmem := List.mem_filter.mp hst
        have hne : st ≠ s.stage := by simpa using hmem.2
        obtain ⟨hd, hdone⟩ := hq code rs hsome st hmem.1
        refine ⟨(stageDataOk_congr h7 code st).mpr hd, ?_⟩
        intro p hp
        rw [h12, alookup_aset_self] at hp
        injection hp with hp
        rw [← hp, markStage_other hne]
        cases hl : alookup code s.progressByCode with
        | none => cases st <;> rfl
        | some p0 => exact hdone p0 hl
      · rw [hqe, alookup_aset_ne t code (fun h => hct h.symm)] at hq'
        obtain ⟨hd, hdone⟩ := hq code q hq' st hst
        refine ⟨(stageDataOk_congr h7 code st).mpr hd, ?_⟩
        intro p hp
        rw [h12, alookup_aset_ne t code (fun h => hct h.symm)] at hp
        exact hdone p hp
  · intro code p hp hcomp
    rw [isCodeComplete_congr code p h8 h10 h9 h11 h7] at hcomp
    rw [h12] at hp
    by_cases hct : code = t
    · subst hct
      rw [alookup_aset_self] at hp
      injection hp with hp
      rcases confirmCorrectResult_found_cond code s with hf | ⟨hfeq, hfalse⟩
      · rw [hf]
        exact mem_addSet.mpr (Or.inr rfl)
      · rw [← hp] at hcomp
        rw [hcomp] at hfalse
        exact absurd hfalse (by decide)
    · rw [alookup_aset_ne t code (fun h => hct h.symm)] at hp
      have hmem := hcs code p hp hcomp
      rcases confirmCorrectResult_found_cond t s with hf | ⟨hfeq, -⟩
      · rw [hf]
        exact subset_addSet _ _ hmem
      · rw [hfeq]
        exact hmem

theorem engineInv_confirmGuess {s : GameState} (hq : queueInv s) (hcs : completeSync s) :
    queueInv (confirmGuess s) ∧ completeSync (confirmGuess s) := by
  cases hsel : s.selectedCode with
  | none =>
      rw [confirmGuess_noop_nosel hsel]
      exact ⟨hq, hcs⟩
  | some a =>
      cases htgt : s.targetCode with
      | none =>
          rw [confirmGuess_noop_notgt htgt]
          exact ⟨hq, hcs⟩
      | some b =>
          by_cases hab : a = b
          · subst hab
            rw [confirmGuess_correct_shape hsel htgt]
            exact engineInv_confirmCorrect hq hcs
          · rw [confirmGuess_wrong hsel htgt hab]
            exact ⟨(queueInv_congr rfl rfl rfl).mp hq,
              (completeSync_congr rfl rfl rfl rfl rfl rfl rfl).mp hcs⟩

theorem queueInvX_of_queueInv {tgt : String} {s : GameState} (h : queueInv s) :
    queueInvX tgt s :=
  fun code q _ hq => h code q hq

theorem queueInv_applySyncTail {s : GameState} {tgt : String} (r3 : Nat → Nat)
    (hqx : queueInvX tgt s) : queueInv (applySyncTail r3 tgt s) := by
  obtain ⟨-, -, h3, -, -, -, -, -, -, -, -, -, -, -, -, h16⟩ :=
    applySyncTail_fields r3 tgt s
  intro code q hq' st hst
  by_cases hct : code = tgt
  · subst hct
    rw [applySyncTail_queue_self] at hq'
    injection hq' with hq'
    subst hq'
    have hm := mem_syncRemainingStages hst
    refine ⟨?_, ?_⟩
    · have h1 := hm.1
      rw [getAvailableStages_getProgress] at h1
      exact (stageDataOk_congr h3 code st).mpr (stageDataOk_of_mem h1)
    · intro p hp
      rw [h16, getProgress_lookup_self] at hp
      injection hp with hp
      rw [← hp]
      exact hm.2
  · rw [applySyncTail_queue_other hct] at hq'
    obtain ⟨hd, hdone⟩ := hqx code q hct hq' st hst
    refine ⟨(stageDataOk_congr h3 code st).mpr hd, ?_⟩
    intro p hp
    rw [h16, getProgress_lookup_other hct] at hp
    exact hdone p hp

theorem completeSync_applySyncTail {s : GameState} {tgt : String} (r3 : Nat → Nat)
    (hcs : completeSync s) : completeSync (applySyncTail r3 tgt s) := by
  obtain ⟨-, -, h3, h4, h5, -, -, -, -, h10, -, -, -, h14, h15, h16⟩ :=
    applySyncTail_fields r3 tgt s
  intro code p hp hcomp
  rw [isCodeComplete_congr code p h4 h14 h5 h15 h3] at hcomp
  rw [h16] at hp
  rcases getProgress_lookup_cases hp with hpS | hpd
  · rw [h10]
    exact hcs code p hpS hcomp
  · rw [hpd, isCodeComplete_default] at hcomp
    exact absurd hcomp (by decide)

theorem queueInvX_stageReset {s : GameState} {tgt : String} (r1 r2 : Nat → Nat)
    (hq : queueInv s) : queueInvX tgt (stageReset r1 r2 tgt s) := by
  obtain ⟨-, -, g3, -, -, -, -, -, -, -, -, -, -, -, -, g16⟩ :=
    stageReset_fields r1 r2 tgt s
  intro code q hct hq' st hst
  rw [stageReset_queue_other hct] at hq'
  obtain ⟨hd, hdone⟩ := hq code q hq' st hst
  refine ⟨(stageDataOk_congr g3 code st).mpr hd, ?_⟩
  intro p hp
  rw [g16, getProgress_lookup_other hct] at hp
  exact hdone p hp

theorem completeSync_stageReset {s : GameState} {tgt : String} (r1 r2 : Nat → Nat)
    (hcs : completeSync s) : completeSync (stageReset r1 r2 tgt s) := by
  obtain ⟨-, -, g3, g4, g5, -, -, -, -, g10, -, -, -, g14, g15, g16⟩ :=
    stageReset_fields r1 r2 tgt s
  intro code p hp hcomp
  rw [isCodeComplete_congr code p g4 g14 g5 g15 g3] at hcomp
  rw [g16] at hp
  rcases getProgress_lookup_cases hp with hpS | hpd
  · rw [g10]
    exact hcs code p hpS hcomp
  · rw [hpd, isCodeComplete_default] at hcomp
    exact absurd hcomp (by decide)

theorem completeSync_refresh (s : GameState) : completeSync (refreshFoundCodes s) := by
  intro code p hp hcomp
  exact mem_refreshFoundCodes.mpr ⟨p, alookup_mem hp, hcomp⟩

theorem engineInv_onToggles {s : GameState} (r1 r2 r3 : Nat → Nat)
    (hq : queueInv s) :
    queueInv (onTogglesChanged r1 r2 r3 s) ∧
      completeSync (onTogglesChanged r1 r2 r3 s) := by
  have hqR : queueInv (refreshFoundCodes s) := (queueInv_congr rfl rfl rfl).mp hq
  have hcsR : completeSync (refreshFoundCodes s) := completeSync_refresh s
  rcases onTogglesChanged_cases r1 r2 r3 s with ⟨htc, heq⟩ |
    ⟨tgt, htc, ⟨hst, heq⟩ | ⟨hst, heq⟩⟩ <;> rw [heq]
  · exact ⟨hqR, hcsR⟩
  · exact ⟨queueInv_applySyncTail r3 (queueInvX_of_queueInv hqR),
      completeSync_applySyncTail r3 hcsR⟩
  · exact ⟨queueInv_applySyncTail r3 (queueInvX_stageReset r1 r2 hqR),
      completeSync_applySyncTail r3 (completeSync_stageReset r1 r2 hcsR)⟩

theorem loadMapStart_fields (next : MapConfig) (s : GameState) :
    (loadMapStart next s).remainingStagesByCode = [] ∧
    (loadMapStart next s).progressByCode = [] := by
  simp only [loadMapStart, resetProgress]
  split <;> split <;> simp

theorem engineInv_reachable {s : GameState} (h : Reachable s) : engineInv s := by
  induction h with
  | init fe ce mid sf sc =>
      exact ⟨queueInv_of_rem_nil rfl, completeSync_of_prog_nil rfl⟩
  | @loadOk s next result ri r1 r2 hs ih =>
      simp only [loadMapSuccess, loadMapResolve]
      obtain ⟨hrm, hpg⟩ := loadMapStart_fields next s
      have h1 : queueInv { loadMapStart next s with countries := result } :=
        queueInv_of_rem_nil hrm
      have h2 : completeSync { loadMapStart next s with countries := result } :=
        completeSync_of_prog_nil hpg
      have H := engineInv_pickNewTarget ri r1 r2 h1 h2
      exact ⟨(queueInv_congr rfl rfl rfl).mp H.1,
        (completeSync_congr rfl rfl rfl rfl rfl rfl rfl).mp H.2⟩
  | @loadErr s next msg hs ih =>
      obtain ⟨hrm, hpg⟩ := loadMapStart_fields next s
      exact ⟨queueInv_of_rem_nil hrm, completeSync_of_prog_nil hpg⟩
  | guess code hs ih =>
      unfold handleGuess
      split
      · exact ih
      · exact ⟨(queueInv_congr rfl rfl rfl).mp ih.1,
          (completeSync_congr rfl rfl rfl rfl rfl rfl rfl).mp ih.2⟩
  | confirm hs ih =>
      exact engineInv_confirmGuess ih.1 ih.2
  | primary ri r1 r2 hs ih =>
      unfold handlePrimaryAction
      split
      · exact ih
      · split
        · rw [advanceRound_eq]
          exact engineInv_pickNewTarget ri r1 r2 ih.1 ih.2
        · exact engineInv_confirmGuess ih.1 ih.2
  | @reset sp ri r1 r2 hs ih =>
      unfold resetGame
      have h1 : queueInv (resetProgress sp) := queueInv_of_rem_nil rfl
      have h2 : completeSync (resetProgress sp) := completeSync_of_prog_nil rfl
      exact engineInv_pickNewTarget ri r1 r2 h1 h2
  | flags b r1 r2 r3 hs ih =>
      unfold setFlagsEnabled
      exact engineInv_onToggles r1 r2 r3 ((queueInv_congr rfl rfl rfl).mp ih.1)
  | capitals b r1 r2 r3 hs ih =>
      unfold setCapitalsEnabled
      exact engineInv_onToggles r1 r2 r3 ((queueInv_congr rfl rfl rfl).mp ih.1)

/-- C4: in every reachable engine state, no entity's remaining-stage queue
contains a stage already marked done in that entity's Progress, nor a stage
whose data prerequisite (flag reference for the flag stage, capital
coordinates for the capital stage) is absent. Reachability is closed under
all the engine's operations — queue synchronization inside target picks and
toggle reconciliation, guess confirmation, resets and loads — so each of
them preserves the invariant. -/
theorem C4_queue_invariant (s : GameState) (h : Reachable s) : queueInv s :=
  (engineInv_reachable h).1

/-- Witness for C4 at a concrete reachable state: after loading the sample
dataset and confirming a correct FR name guess. -/
theorem C4_queue_invariant_witness :
    queueInv (confirmGuess (handleGuess "FR" sampleLoaded)) :=
  C4_queue_invariant _ (Reachable.confirm (Reachable.guess "FR"
    (Reachable.loadOk mapA sampleResult 0 zOracle zOracle
      (Reachable.init false false "europe" true true))))
